import Mathlib

/-!
helmenv: configuration templates, chart decoding, deployment order, URLs

A shallow embedding of `environment/config_templates.go` and of the parts of
the `environment` package that its tests exercise.

Conventions of the embedding:

* a Go `map[string]T` held by the program is an association list with at most
  one entry per key, read with `GoMap.get` and written with `GoMap.set` (the Go
  statement `m[k] = v`);
* a Go `map[string]interface{}` value is a reference: an address into a heap
  of maps (`Heap`), `none` for the nil map. Two variables, two charts or two
  entries of a map holding the same address share one map, and a write through
  one is seen through all. A map literal allocates a new map;
* a Go function that allocates or writes maps takes the heap and returns it;
  a `SimulatedNetwork`, a Go `func()`, is such a function;
* `range` over a Go map visits its entries in an order the language leaves
  open: the order is a parameter (`rangeOrder`) of `loadNetworkCharts` and of
  its callers, and the statements hold for every order;
* writing to a nil map panics in Go: the one function that can do so returns an
  `Option`, `none` standing for the panic;
* `log.Warn()` writes to a global logger and changes no data, so the branch
  of `loadNetworkCharts` that only logs is not part of the state.
-/

set_option autoImplicit false

namespace Helmenv

/-! ## Maps, values and the heap -/

/-- Go `map[string]T` (non-nil), as the list of its entries. -/
abbrev GoMap (β : Type) := List (String × β)

/-- Go `v, present := m[k]`. -/
def GoMap.get {β : Type} : GoMap β → String → Option β
  | [], _ => none
  | (k', v) :: rest, k => if k' = k then some v else GoMap.get rest k

/-- Go `m[k] = v`. -/
def GoMap.set {β : Type} : GoMap β → String → β → GoMap β
  | [], k, v => [(k, v)]
  | (k', v') :: rest, k, v =>
    if k' = k then (k, v) :: rest else (k', v') :: GoMap.set rest k v

/-- The keys of a map. -/
def GoMap.keys {β : Type} (m : GoMap β) : List String := m.map Prod.fst

/-- The address of a map in the heap. -/
abbrev Addr := Nat

/-- Go `interface{}` as a chart value at run time: strings, numbers, booleans,
sequences, and references to `map[string]interface{}` maps. -/
inductive Val where
  | str : String → Val
  | int : Int → Val
  | bool : Bool → Val
  | list : List Val → Val
  | ref : Addr → Val

/-- The maps the program has allocated, by address. -/
abbrev Heap := List (GoMap Val)

/-- Go `map[string]interface{}{...}`: a new map with the given entries; its
address and the heap holding it. -/
def Heap.alloc (h : Heap) (m : GoMap Val) : Addr × Heap := (h.length, h ++ [m])

/-- The map at an address. -/
def Heap.read (h : Heap) (a : Addr) : Option (GoMap Val) := h[a]?

/-- Go `m[k] = v` for the map `m` at address `a`. -/
def Heap.write (h : Heap) (a : Addr) (k : String) (v : Val) : Heap :=
  match h[a]? with
  | some m => h.set a (GoMap.set m k v)
  | none => h

/-- Go `m[k]` for the map `m` at address `a`. -/
def Heap.get (h : Heap) (a : Addr) (k : String) : Option Val :=
  match h[a]? with
  | some m => GoMap.get m k
  | none => none

/-- Reading along a path of keys, `v[k1][k2]...`, through the maps the values
refer to. -/
def Heap.path (h : Heap) : Val → List String → Option Val
  | v, [] => some v
  | Val.ref a, k :: ks =>
    match Heap.get h a k with
    | some v => Heap.path h v ks
    | none => none
  | _, _ :: _ => none

/-- A chart value written out: strings, numbers, booleans, sequences and
mappings, as a chart document holds them and as a value reads once the
references are followed. -/
inductive Value where
  | str : String → Value
  | int : Int → Value
  | bool : Bool → Value
  | list : List Value → Value
  | map : List (String × Value) → Value

/-- A mapping written out. -/
abbrev Values := GoMap Value

/-- The value `v` written out, following references at most `depth` maps
deep (an empty mapping stands for what lies deeper). -/
def Heap.snapshot (h : Heap) : Nat → Val → Value
  | _, Val.str s => Value.str s
  | _, Val.int n => Value.int n
  | _, Val.bool b => Value.bool b
  | 0, Val.list _ => Value.list []
  | 0, Val.ref _ => Value.map []
  | depth + 1, Val.list l => Value.list (l.map (Heap.snapshot h depth))
  | depth + 1, Val.ref a =>
    match h[a]? with
    | some m => Value.map (m.map (fun e => (e.1, Heap.snapshot h depth e.2)))
    | none => Value.map []

/-! ## Charts and configs -/

/-- Modelled from the spec: the connection record of one (instance, scope),
`{localPorts, remotePorts}`, whose Go declaration is not in the sources at hand. -/
structure ConnectionRecord where
  LocalPorts : GoMap Nat
  RemotePorts : GoMap Nat

/-- Modelled from the spec: the `HelmChart` struct (the workload descriptor),
whose Go declaration is not in the sources at hand; the fields are those the
templates and tests set. Hooks are callbacks and are left out. The type `V` of
the values is `Addr` in the Go program, where they are a map reference, and
`Values` in a descriptor written out. -/
structure HelmChart (V : Type) where
  ReleaseName : String := ""
  Path : String := ""
  URL : String := ""
  Index : Int := 0
  Values : Option V := none
  AutoConnect : Bool := false
  ChartConnections : GoMap ConnectionRecord := []

/-- Go `type Charts map[string]*HelmChart`. -/
abbrev Charts (V : Type) := GoMap (HelmChart V)

/-- Go `Config`, the fields the templates set. -/
structure Config where
  NamespacePrefix : String
  Charts : Charts Addr

def mockServerConfigChartName : String := "mockserver-config"
def mockServerChartName : String := "mockserver"
def pluginChartName : String := "plugin"

/-- `NewPluginChart` returns a default Plugin Helm chart based on a set of
override values. -/
def NewPluginChart (index : Int) (values : Option Addr) : HelmChart Addr :=
  { Values := values, Index := index }

/-- `PluginVersion` sets the version of the plugin image to use. It writes
into the map it is given, or into a new one for nil, and returns that map. -/
def PluginVersion (version : String) (values : Option Addr) (h : Heap) : Addr × Heap :=
  let (values, h) := match values with
    | none => Heap.alloc h []
    | some a => (a, h)
  let (image, h) := Heap.alloc h [("version", Val.str version)]
  let (plugin, h) := Heap.alloc h [("image", Val.ref image)]
  (values, Heap.write h values "plugin" (Val.ref plugin))

/-- `PluginReplicas` sets the replica count of plugin nodes to use. It writes
into the map it is given, or into a new one for nil, and returns that map. -/
def PluginReplicas (count : Int) (values : Option Addr) (h : Heap) : Addr × Heap :=
  let (values, h) := match values with
    | none => Heap.alloc h []
    | some a => (a, h)
  (values, Heap.write h values "replicas" (Val.int count))

/-! ## Simulated networks -/

/-- Go `type SimulatedNetwork func() (string, map[string]interface{})`: called
in a heap, it returns a chart name, a map reference or nil, and the heap it
leaves. -/
abbrev SimulatedNetwork := Heap → (String × Option Addr) × Heap

/-- `DefaultGeth` sets up a basic, low-power simulated geth instance. -/
def DefaultGeth : SimulatedNetwork := fun h =>
  let (values, h) := Heap.alloc h []
  (("geth", some values), h)

/-- The map literal `{"requests": {"cpu", "memory"}, "limits": {"cpu",
"memory"}}` of the geth networks. -/
def gethResources (cpu memory : String) (h : Heap) : Val × Heap :=
  let (requests, h) := Heap.alloc h [("cpu", Val.str cpu), ("memory", Val.str memory)]
  let (limits, h) := Heap.alloc h [("cpu", Val.str cpu), ("memory", Val.str memory)]
  let (resources, h) := Heap.alloc h
    [("requests", Val.ref requests), ("limits", Val.ref limits)]
  (Val.ref resources, h)

/-- `PerformanceGeth`: more power, bigger blocks, faster mining. -/
def PerformanceGeth : SimulatedNetwork := fun h =>
  let (values, h) := Heap.alloc h []
  let (resources, h) := gethResources "1" "1024Mi" h
  let h := Heap.write h values "resources" resources
  let (configArgs, h) := Heap.alloc h [
    ("--dev.period", Val.str "1"),
    ("--miner.threads", Val.str "1"),
    ("--miner.gasprice", Val.str "10000000000"),
    ("--miner.gastarget", Val.str "30000000000"),
    ("--cache", Val.str "4096")]
  let h := Heap.write h values "config_args" (Val.ref configArgs)
  (("geth", some values), h)

/-- `RealisticGeth`: emulates the ethereum mainnet as closely as possible. -/
def RealisticGeth : SimulatedNetwork := fun h =>
  let (values, h) := Heap.alloc h []
  let (resources, h) := gethResources "1" "1024Mi" h
  let h := Heap.write h values "resources" resources
  let (configArgs, h) := Heap.alloc h [
    ("--dev.period", Val.str "14"),
    ("--miner.threads", Val.str "1"),
    ("--miner.gasprice", Val.str "10000000000"),
    ("--miner.gastarget", Val.str "15000000000"),
    ("--cache", Val.str "4096")]
  let h := Heap.write h values "config_args" (Val.ref configArgs)
  (("geth", some values), h)

/-- Go `networkChart`: organizes passed in values for simulated network
charts. `Values` is the map the network returned, not a copy of it. -/
structure networkChart where
  Replicas : Int
  Values : Addr

/-- The first loop of `loadNetworkCharts`, one iteration: call the network,
replace nil values by a new empty map, and either record the chart with one
replica and the returned map, or count one more replica of a chart already
recorded. -/
def loadNetworkCharts.visit (state : GoMap networkChart × Heap)
    (networkFunc : SimulatedNetwork) : GoMap networkChart × Heap :=
  let (networkCharts, h) := state
  let ((chartName, networkValues), h) := networkFunc h
  let (networkValues, h) := match networkValues with
    | none => Heap.alloc h []
    | some a => (a, h)
  match GoMap.get networkCharts chartName with
  | none =>
    (GoMap.set networkCharts chartName { Replicas := 1, Values := networkValues }, h)
  | some present =>
    (GoMap.set networkCharts chartName { present with Replicas := present.Replicas + 1 }, h)

/-- The second loop of `loadNetworkCharts`, one iteration: write the replica
count into the network chart's map and store the chart, holding that same map,
at index 1. -/
def loadNetworkCharts.store (state : Charts Addr × Heap) (entry : String × networkChart) :
    Charts Addr × Heap :=
  let (charts, h) := state
  let (chartName, nc) := entry
  let h := Heap.write h nc.Values "replicas" (Val.int nc.Replicas)
  (GoMap.set charts chartName { Index := 1, Values := some nc.Values }, h)

/-- `loadNetworkCharts` loads and configures the network charts and builds
the prefix of the namespace. `charts` is mutated in Go, so it is returned
here, with the heap. `rangeOrder` is the order in which `range networkCharts`
visits the entries. -/
def loadNetworkCharts (rangeOrder : GoMap networkChart → GoMap networkChart)
    (optionalNamespacePrefix : String) (charts : Charts Addr)
    (networks : List SimulatedNetwork) (h : Heap) : String × Charts Addr × Heap :=
  let nameSpacePrefix := if optionalNamespacePrefix ≠ "" then optionalNamespacePrefix else "plugin"
  let (networkCharts, h) := networks.foldl loadNetworkCharts.visit ([], h)
  let (charts, h) := (rangeOrder networkCharts).foldl loadNetworkCharts.store (charts, h)
  (nameSpacePrefix, charts, h)

/-- `NewPluginConfig` returns a vanilla Plugin environment used for generic
functional testing. -/
def NewPluginConfig (rangeOrder : GoMap networkChart → GoMap networkChart)
    (pluginValues : Option Addr) (optionalNamespacePrefix : String)
    (networks : List SimulatedNetwork) (h : Heap) : Config × Heap :=
  let charts : Charts Addr := [
    (mockServerConfigChartName, { Index := 1 }),
    (mockServerChartName, { Index := 2 }),
    (pluginChartName, NewPluginChart 2 pluginValues)]
  let (nameSpacePrefix, charts, h) :=
    loadNetworkCharts rangeOrder optionalNamespacePrefix charts networks h
  ({ NamespacePrefix := nameSpacePrefix, Charts := charts }, h)

/-- The map literal `{"resources": {"requests": {"cpu", "memory"}, "limits":
{"cpu", "memory"}}}` written three times in `NewPerformancePluginConfig`. -/
def resourcesValue (cpu memory : String) (h : Heap) : Val × Heap :=
  let (requests, h) := Heap.alloc h [("cpu", Val.str cpu), ("memory", Val.str memory)]
  let (limits, h) := Heap.alloc h [("cpu", Val.str cpu), ("memory", Val.str memory)]
  let (resources, h) := Heap.alloc h
    [("requests", Val.ref requests), ("limits", Val.ref limits)]
  let (top, h) := Heap.alloc h [("resources", Val.ref resources)]
  (Val.ref top, h)

/-- `NewPerformancePluginConfig` launches an environment with upgraded
resources. The first statement writes to `pluginValues`, which panics when the
map is nil: `none`. -/
def NewPerformancePluginConfig (rangeOrder : GoMap networkChart → GoMap networkChart)
    (pluginValues : Option Addr) (optionalNamespacePrefix : String)
    (networks : List SimulatedNetwork) (h : Heap) : Option (Config × Heap) :=
  match pluginValues with
  | none => none
  | some pluginValues =>
    let (plugin, h) := resourcesValue "2" "4096Mi" h
    let h := Heap.write h pluginValues "plugin" plugin
    let (db, h) := resourcesValue "1" "2048Mi" h
    let h := Heap.write h pluginValues "db" db
    let (app, h) := resourcesValue "1" "1024Mi" h
    let (mockServerValues, h) := Heap.alloc h [("app", app)]
    let charts : Charts Addr := [
      (mockServerConfigChartName, { Index := 1 }),
      (mockServerChartName, { Index := 2, Values := some mockServerValues }),
      (pluginChartName, NewPluginChart 2 (some pluginValues))]
    let (nameSpacePrefix, charts, h) :=
      loadNetworkCharts rangeOrder optionalNamespacePrefix charts networks h
    some ({ NamespacePrefix := nameSpacePrefix, Charts := charts }, h)

/-! ## Decoding a charts document -/

mutual
/-- Modelled from the spec: the deep merge of a decoded mapping `src` into the
values `dst` ("a value under an existing workload name is deep-merged into that
workload's `values`"); the Go function doing it is not in the sources at hand.
Key by key, a mapping met by a mapping is merged into it, anything else
replaces what was there. -/
def deepMerge (dst : Values) : List (String × Value) → Values
  | [] => dst
  | (k, v) :: rest => deepMerge (GoMap.set dst k (mergeValue (GoMap.get dst k) v)) rest
/-- Modelled from the spec: one key of the deep merge, `old` being what the
destination holds under the key. -/
def mergeValue (old : Option Value) : Value → Value
  | Value.map src =>
    match old with
    | some (Value.map dst) => Value.map (deepMerge dst src)
    | _ => Value.map src
  | v => v
end

/-- Modelled from the spec: why decoding a charts document fails. -/
inductive DecodeError where
  | MalformedDescriptor : DecodeError

/-- Modelled from the spec: the `values` of one entry of a charts document.
An entry is a mapping; its `values`, when there, is a mapping; other fields are
not read ("fails only on structural malformation, not on unknown/missing
fields"). -/
def Decode.entryValues : Value → Except DecodeError (Option Values)
  | Value.map fields =>
    match GoMap.get fields "values" with
    | none => Except.ok none
    | some (Value.map vals) => Except.ok (some vals)
    | some _ => Except.error DecodeError.MalformedDescriptor
  | _ => Except.error DecodeError.MalformedDescriptor

/-- Modelled from the spec: one workload of the document merged into the
descriptor. Under an existing workload name the values are deep-merged into
that workload's values; a name the descriptor does not hold yet gets a chart
with the document's values. -/
def Decode.mergeChart (charts : Charts Values) (name : String) (vals : Option Values) :
    Charts Values :=
  match GoMap.get charts name, vals with
  | some chart, some vals =>
    let old := match chart.Values with
      | none => []
      | some m => m
    GoMap.set charts name { chart with Values := some (deepMerge old vals) }
  | some _, none => charts
  | none, vals => GoMap.set charts name { Values := vals }

/-- Modelled from the spec: the entries of a document merged in turn. -/
def Decode.entries (charts : Charts Values) :
    List (String × Value) → Except DecodeError (Charts Values)
  | [] => Except.ok charts
  | (name, entry) :: rest =>
    match Decode.entryValues entry with
    | Except.error e => Except.error e
    | Except.ok vals => Decode.entries (Decode.mergeChart charts name vals) rest

/-- Modelled from the spec: `Charts.Decode`, which is not in the sources at
hand. The document is taken already parsed; it must be a mapping keyed by
workload name ("Decode fails with `MalformedDescriptorError` if the document
cannot be parsed into the mapping shape"), and is merged into the descriptor
the method is called on, whose values are mappings written out, as the spec
has them. -/
def Decode (charts : Charts Values) : Value → Except DecodeError (Charts Values)
  | Value.map entries => Decode.entries charts entries
  | _ => Except.error DecodeError.MalformedDescriptor

/-! ## Endpoint URLs of a workload's connections -/

/-- Modelled from the spec: why a connection lookup fails ("missing port name
in connection lookup"). -/
inductive ConnectionError where
  | NotFound : ConnectionError

/-- Modelled from the spec: a composed endpoint URL, `scheme://host:port`. -/
def composeURL (scheme host : String) (port : Nat) : String :=
  scheme ++ "://" ++ host ++ ":" ++ toString port

/-- Modelled from the spec: `LocalURLsByPort`, which is not in the sources at
hand: "produce the ordered sequence of composed endpoint URLs
(`scheme://host:port`) across all connection records of a workload that expose
`portName`; fails ... if zero records expose that port name". The host of a
local endpoint is not fixed by the spec and is a parameter. -/
def LocalURLsByPort (connections : GoMap ConnectionRecord) (host portName scheme : String) :
    Except ConnectionError (List String) :=
  let urls := connections.foldl (fun (urls : List String) entry =>
    match GoMap.get entry.2.LocalPorts portName with
    | some port => urls ++ [composeURL scheme host port]
    | none => urls) []
  if urls.isEmpty then Except.error ConnectionError.NotFound else Except.ok urls

/-! ## The deployment scheduler -/

/-- Modelled from the spec: the state of one workload in the scheduler,
`Pending → Deploying → Deployed` or `Pending → Deploying → Failed`. -/
inductive Status where
  | Pending : Status
  | Deploying : Status
  | Deployed : Status
  | Failed : Status
  deriving DecidableEq

/-- Modelled from the spec: the priorities (`Index`) of the charts, each once,
ascending ("partition ... by `priority` into groups; sort groups ascending"). -/
def priorities {V : Type} (charts : Charts V) : List Int :=
  List.insertionSort (fun a b => a ≤ b) (List.dedup (charts.map (fun e => e.2.Index)))

/-- Modelled from the spec: the priority group of `p`, the names of the charts
whose `Index` is `p`. -/
def priorityGroup {V : Type} (charts : Charts V) (p : Int) : List String :=
  (GoMap.keys charts).filter
    (fun name => decide ((GoMap.get charts name).map (fun chart => chart.Index) = some p))

/-- Modelled from the spec: `Charts.OrderedKeys`, which is not in the sources
at hand: the chart names in priority groups, ascending. -/
def OrderedKeys {V : Type} (charts : Charts V) : List (List String) :=
  (priorities charts).map (priorityGroup charts)

/-- Modelled from the spec: the state of `DeployAll`: the group being deployed
followed by the groups still to come, and the state of every workload. -/
structure DeployAllState where
  groups : List (List String)
  status : String → Status

/-- Modelled from the spec: what can happen next during `DeployAll`, whose
workloads within a group run concurrently: a workload of the group being
deployed begins its unit of work, a workload finishes its unit of work with or
without an error, or the group's join barrier opens. -/
inductive DeployAction where
  | start : String → DeployAction
  | finish : String → Bool → DeployAction
  | next : DeployAction

/-- Modelled from the spec: `DeployAll` before anything runs. -/
def DeployAll.init {V : Type} (charts : Charts V) : DeployAllState :=
  { groups := OrderedKeys charts, status := fun _ => Status.Pending }

/-- Modelled from the spec: one step of `DeployAll`, `none` when the step
cannot happen. A workload begins only when it is `Pending` and belongs to the
group being deployed; only a `Deploying` workload finishes, as `Deployed` or
`Failed`; the barrier opens only when the whole group is `Deployed` ("wait for
the entire group to finish before starting the next group"; "a failed group
halts the whole `DeployAll`"). -/
def DeployAll.step (s : DeployAllState) : DeployAction → Option DeployAllState
  | DeployAction.start name =>
    match s.groups with
    | [] => none
    | group :: _ =>
      if name ∈ group ∧ s.status name = Status.Pending then
        some { s with status := fun n => if n = name then Status.Deploying else s.status n }
      else none
  | DeployAction.finish name ok =>
    if s.status name = Status.Deploying then
      some { s with status := fun n =>
        if n = name then (if ok then Status.Deployed else Status.Failed) else s.status n }
    else none
  | DeployAction.next =>
    match s.groups with
    | [] => none
    | group :: rest =>
      if group.all (fun n => decide (s.status n = Status.Deployed)) then
        some { s with groups := rest }
      else none

/-- Modelled from the spec: `DeployAll` along a schedule, the interleaving
the concurrent units of work happen to take. -/
def DeployAll.run (s : DeployAllState) : List DeployAction → Option DeployAllState
  | [] => some s
  | a :: rest =>
    match DeployAll.step s a with
    | none => none
    | some s2 => DeployAll.run s2 rest

/-! ## Vocabulary of the statements -/

mutual
/-- Every mapping reachable through nested mappings has each key once, as a
decoded JSON object has. -/
def Value.uniqueKeys : Value → Bool
  | Value.map m => decide (GoMap.keys m).Nodup && Value.uniqueKeysEntries m
  | _ => true
/-- The values of the entries have each key once, see `Value.uniqueKeys`. -/
def Value.uniqueKeysEntries : List (String × Value) → Bool
  | [] => true
  | (_, v) :: rest => Value.uniqueKeys v && Value.uniqueKeysEntries rest
end

/-- One entry of a well-formed charts document: a mapping whose `values`, when
there, is a mapping with each key once. -/
def Document.wellFormedEntry (entry : Value) : Bool :=
  match Decode.entryValues entry with
  | Except.ok none => true
  | Except.ok (some vals) => Value.uniqueKeys (Value.map vals)
  | Except.error _ => false

/-- A well-formed charts document: a mapping keyed by workload name, each name
once, every entry well formed. -/
def Document.wellFormed : Value → Bool
  | Value.map entries =>
    decide (GoMap.keys entries).Nodup && entries.all (fun e => Document.wellFormedEntry e.2)
  | _ => false

mutual
/-- The values `d` already hold everything the mapping `s` would merge in. -/
def Absorbs (d : Values) : List (String × Value) → Prop
  | [] => True
  | (k, v) :: rest => (∃ w, GoMap.get d k = some w ∧ AbsorbsValue w v) ∧ Absorbs d rest
/-- The value `w` already holds everything merging `v` over it would bring. -/
def AbsorbsValue (w : Value) : Value → Prop
  | Value.map s => ∃ d, w = Value.map d ∧ Absorbs d s
  | v => w = v
end

/-- The chart `name` is there and its values already hold everything the
document's values `vals` for it would merge in. -/
def ChartAbsorbs (charts : Charts Values) (name : String) (vals : Option Values) : Prop :=
  ∃ chart, GoMap.get charts name = some chart ∧
    ∀ v, vals = some v → ∃ old, chart.Values = some old ∧ Absorbs old v

/-- The charts document `TestChartsFile` writes, parsed, with the test's image
names and versions filled in. -/
def chartsTestFile : Value :=
  Value.map [
    ("geth", Value.map [("values", Value.map [("geth", Value.map [("image", Value.map [
      ("image", Value.str "test/geth/image"), ("version", Value.str "v0.6.5")])])])]),
    ("plugin", Value.map [("values", Value.map [("plugin", Value.map [("image", Value.map [
      ("image", Value.str "test/plugin/image"), ("version", Value.str "v0.6.4")])])])])]

/-- The charts of `TestParallelDeployments`, in the order the test adds them. -/
def parallelDeploymentsCharts : Charts Addr := [
  ("geth", { ReleaseName := "geth", Path := "geth", Index := 1 }),
  ("plugin-1", { ReleaseName := "plugin-1", Path := "plugin", Index := 2 }),
  ("plugin-2", { ReleaseName := "plugin-2", Path := "plugin", Index := 2 })]

/-- The charts of `TestCanDeployAll`, the one with the higher index added
first. -/
def unorderedCharts : Charts Addr := [
  ("plugin", { ReleaseName := "plugin", Path := "plugin", Index := 4 }),
  ("geth", { ReleaseName := "geth", Path := "geth", Index := 2 })]

/-- The local ports of the connection records that expose `portName`, in
order. -/
def exposedLocalPorts (connections : GoMap ConnectionRecord) (portName : String) : List Nat :=
  connections.filterMap (fun entry => GoMap.get entry.2.LocalPorts portName)

/-- What holds of `DeployAll` at every moment: the groups left are those of a
tail of the priorities, every workload of an earlier priority is `Deployed`,
and every workload of a priority after the one being deployed is `Pending`. -/
def DeployAll.Inv {V : Type} (charts : Charts V) (s : DeployAllState) : Prop :=
  ∃ done rest : List Int, priorities charts = done ++ rest ∧
    s.groups = rest.map (priorityGroup charts) ∧
    (∀ n c, GoMap.get charts n = some c → c.Index ∈ done → s.status n = Status.Deployed) ∧
    (∀ n c, GoMap.get charts n = some c → c.Index ∈ rest.tail → s.status n = Status.Pending)

/-- The charts written out: the values of every chart read from the heap,
references followed as deep as the heap has maps. -/
def Charts.snapshot (h : Heap) (charts : Charts Addr) : Charts Values :=
  charts.map (fun e => (e.1, {
    ReleaseName := e.2.ReleaseName
    Path := e.2.Path
    URL := e.2.URL
    Index := e.2.Index
    Values := e.2.Values.map (fun a =>
      match Heap.snapshot h (h.length + 1) (Val.ref a) with
      | Value.map m => m
      | _ => [])
    AutoConnect := e.2.AutoConnect
    ChartConnections := e.2.ChartConnections }))

/-- The charts `TestChartsFile` decodes into, those of
`NewPluginConfig(map[string]interface{}{}, "")`, written out. -/
def pluginConfigCharts : Charts Values :=
  Charts.snapshot (NewPluginConfig id (some 0) "" [] [[]]).2
    (NewPluginConfig id (some 0) "" [] [[]]).1.Charts

/-- A network that only builds maps: called in any heap that has at least
the `size` first maps, it leaves the maps already there as they are, adding
new ones after them, and the map it returns is in the heap it leaves. -/
def SimulatedNetwork.WellBehaved (n : SimulatedNetwork) (size : Nat) : Prop :=
  ∀ h : Heap, size ≤ h.length → h <+: (n h).2 ∧ ∀ a, (n h).1.2 = some a → a < (n h).2.length

/-- An order `range` may visit the entries of a map in: some arrangement of
the entries, whatever the map. -/
def RangeOrder (rangeOrder : GoMap networkChart → GoMap networkChart) : Prop :=
  ∀ m, (rangeOrder m).Perm m

/-- One network called as the first loop of `loadNetworkCharts` calls it: the
name and the map it returned, a new empty map standing in for nil, and the heap
left. -/
def loadNetworkCharts.call (networkFunc : SimulatedNetwork) (h : Heap) :
    (String × Addr) × Heap :=
  match networkFunc h with
  | ((chartName, none), h) => ((chartName, (Heap.alloc h []).1), (Heap.alloc h []).2)
  | ((chartName, some a), h) => ((chartName, a), h)

/-- What the networks returned, in the order the first loop of
`loadNetworkCharts` calls them, starting in the heap `h`. -/
def loadNetworkCharts.calls : List SimulatedNetwork → Heap → List (String × Addr)
  | [], _ => []
  | n :: rest, h =>
    (loadNetworkCharts.call n h).1 :: loadNetworkCharts.calls rest (loadNetworkCharts.call n h).2

/-- The heap once every network has been called. -/
def loadNetworkCharts.heapAfterCalls : List SimulatedNetwork → Heap → Heap
  | [], h => h
  | n :: rest, h => loadNetworkCharts.heapAfterCalls rest (loadNetworkCharts.call n h).2

/-- The bookkeeping of the first loop of `loadNetworkCharts` for one returned
name and map. -/
def loadNetworkCharts.record (networkCharts : GoMap networkChart) (call : String × Addr) :
    GoMap networkChart :=
  match GoMap.get networkCharts call.1 with
  | none => GoMap.set networkCharts call.1 { Replicas := 1, Values := call.2 }
  | some present =>
    GoMap.set networkCharts call.1 { present with Replicas := present.Replicas + 1 }

/-- The network charts the first loop of `loadNetworkCharts` has recorded
once every network has been called. -/
def loadNetworkCharts.networkCharts (networks : List SimulatedNetwork) (h : Heap) :
    GoMap networkChart :=
  (loadNetworkCharts.calls networks h).foldl loadNetworkCharts.record []

/-- How many of the calls returned the chart name `c`. -/
def replicasOf (c : String) (calls : List (String × Addr)) : Nat :=
  (calls.filter (fun call => decide (call.1 = c))).length

/-- The map returned by the first call that returned the chart name `c`. -/
def firstCall (c : String) (calls : List (String × Addr)) : Option Addr :=
  (calls.find? (fun call => decide (call.1 = c))).map Prod.snd

/-- A network that returns the chart name `name` and, every time it is
called, the same map `a`: the Go closure `func() { return name, m }` over a map
`m` of the caller. -/
def sharedNetwork (name : String) (a : Addr) : SimulatedNetwork :=
  fun h => ((name, some a), h)

/-- A network that returns the chart name `name` and nil values. -/
def nilNetwork (name : String) : SimulatedNetwork :=
  fun h => ((name, none), h)

/-- The mapping `{"resources": {"requests": {"cpu", "memory"}, "limits":
{"cpu", "memory"}}}`, written out. -/
def resourcesTree (cpu memory : String) : Value :=
  Value.map [("resources", Value.map [
    ("requests", Value.map [("cpu", Value.str cpu), ("memory", Value.str memory)]),
    ("limits", Value.map [("cpu", Value.str cpu), ("memory", Value.str memory)])])]

/-- Three networks a caller makes over one map of its own, at address 0: two
named "a" and one named "b", each returning that map. -/
def sharingNetworks : List SimulatedNetwork :=
  [sharedNetwork "a" 0, sharedNetwork "a" 0, sharedNetwork "b" 0]

/-- A heap with a map `m` at address 0 and a map `sub` at address 1, where
`m["sub"] = sub`. -/
def nestedHeap : Heap := [[("sub", Val.ref 1)], []]

/-- Two networks over the maps of `nestedHeap`: "a" returns `m`, "b" returns
`sub`. -/
def nestedNetworks : List SimulatedNetwork := [sharedNetwork "a" 0, sharedNetwork "b" 1]

/-- A heap with one map of the caller, `{"a": "x"}`, at address 0. -/
def callerHeap : Heap := [[("a", Val.str "x")]]

/-- The three geth networks of the repository, in a list. -/
def gethNetworks : List SimulatedNetwork := [DefaultGeth, PerformanceGeth, RealisticGeth]

/-- The charts `NewPluginConfig` starts from, before the network charts are
loaded. -/
def NewPluginConfig.base (pluginValues : Option Addr) : Charts Addr := [
  (mockServerConfigChartName, { Index := 1 }),
  (mockServerChartName, { Index := 2 }),
  (pluginChartName, NewPluginChart 2 pluginValues)]

/-- What `NewPerformancePluginConfig` has built, for the non-nil
`pluginValues`, when it comes to load the network charts: the map of the
mockserver values and the heap. -/
def NewPerformancePluginConfig.prelude (pluginValues : Addr) (h : Heap) : Addr × Heap :=
  let h1 := Heap.write (resourcesValue "2" "4096Mi" h).2 pluginValues "plugin"
    (resourcesValue "2" "4096Mi" h).1
  let h2 := Heap.write (resourcesValue "1" "2048Mi" h1).2 pluginValues "db"
    (resourcesValue "1" "2048Mi" h1).1
  Heap.alloc (resourcesValue "1" "1024Mi" h2).2 [("app", (resourcesValue "1" "1024Mi" h2).1)]

/-- The charts `NewPerformancePluginConfig` starts from, for the non-nil
`pluginValues`, before the network charts are loaded. -/
def NewPerformancePluginConfig.base (pluginValues : Addr) (h : Heap) : Charts Addr := [
  (mockServerConfigChartName, { Index := 1 }),
  (mockServerChartName,
    { Index := 2, Values := some (NewPerformancePluginConfig.prelude pluginValues h).1 }),
  (pluginChartName, NewPluginChart 2 (some pluginValues))]

/-- The map of the chart `name` of a config, when the chart is there and its
values are not nil. -/
def Config.chartValues (cfg : Config) (name : String) : Option Addr :=
  (GoMap.get cfg.Charts name).bind (fun chart => chart.Values)

/-- The value has, under `root`, a resources block whose requests and whose
limits are `cpu` and `memory`. -/
def Heap.hasResources (h : Heap) (v : Val) (root cpu memory : String) : Prop :=
  Heap.path h v [root, "resources", "requests", "cpu"] = some (Val.str cpu) ∧
  Heap.path h v [root, "resources", "requests", "memory"] = some (Val.str memory) ∧
  Heap.path h v [root, "resources", "limits", "cpu"] = some (Val.str cpu) ∧
  Heap.path h v [root, "resources", "limits", "memory"] = some (Val.str memory)

/-! ## Basic facts about maps -/

theorem GoMap.get_set_same {β : Type} (m : GoMap β) (k : String) (v : β) :
    GoMap.get (GoMap.set m k v) k = some v := by
  induction m with
  | nil => simp [GoMap.set, GoMap.get]
  | cons hd tl ih =>
    obtain ⟨k', v'⟩ := hd
    by_cases h : k' = k
    · simp [GoMap.set, GoMap.get, h]
    · simp [GoMap.set, GoMap.get, h, ih]

theorem GoMap.get_set_other {β : Type} (m : GoMap β) (k k2 : String) (v : β) (h : k ≠ k2) :
    GoMap.get (GoMap.set m k v) k2 = GoMap.get m k2 := by
  induction m with
  | nil => simp [GoMap.set, GoMap.get, h]
  | cons hd tl ih =>
    obtain ⟨k', v'⟩ := hd
    by_cases h1 : k' = k
    · subst h1
      simp [GoMap.set, GoMap.get, h]
    · simp only [GoMap.set, h1, if_false, GoMap.get, ih]

theorem GoMap.get_eq_none_of_not_mem {β : Type} (m : GoMap β) (k : String)
    (h : k ∉ GoMap.keys m) : GoMap.get m k = none := by
  induction m with
  | nil => rfl
  | cons hd tl ih =>
    obtain ⟨k', v'⟩ := hd
    simp only [GoMap.keys, List.map_cons, List.mem_cons, not_or] at h
    have h1 : ¬ k' = k := fun e => h.1 e.symm
    simp only [GoMap.get, h1, if_false]
    exact ih h.2

theorem GoMap.mem_keys_of_get {β : Type} (m : GoMap β) (k : String) (v : β)
    (h : GoMap.get m k = some v) : k ∈ GoMap.keys m := by
  by_contra hk
  rw [GoMap.get_eq_none_of_not_mem m k hk] at h
  exact Option.noConfusion h

theorem GoMap.get_isSome_of_mem {β : Type} (m : GoMap β) (k : String)
    (h : k ∈ GoMap.keys m) : ∃ v, GoMap.get m k = some v := by
  induction m with
  | nil => simp [GoMap.keys] at h
  | cons hd tl ih =>
    obtain ⟨k', v'⟩ := hd
    by_cases h1 : k' = k
    · exact ⟨v', by simp [GoMap.get, h1]⟩
    · simp only [GoMap.keys, List.map_cons, List.mem_cons] at h
      rcases h with h | h
      · exact absurd h.symm h1
      · obtain ⟨v, hv⟩ := ih h
        exact ⟨v, by simp [GoMap.get, h1, hv]⟩

theorem GoMap.keys_set_of_mem {β : Type} (m : GoMap β) (k : String) (v : β)
    (h : k ∈ GoMap.keys m) : GoMap.keys (GoMap.set m k v) = GoMap.keys m := by
  induction m with
  | nil => simp [GoMap.keys] at h
  | cons hd tl ih =>
    obtain ⟨k', v'⟩ := hd
    by_cases h1 : k' = k
    · simp [GoMap.set, GoMap.keys, h1]
    · simp only [GoMap.keys, List.map_cons, List.mem_cons] at h
      rcases h with h | h
      · exact absurd h.symm h1
      · have := ih h
        simp only [GoMap.keys] at this
        simp [GoMap.set, GoMap.keys, h1, this]

theorem GoMap.keys_set_of_not_mem {β : Type} (m : GoMap β) (k : String) (v : β)
    (h : k ∉ GoMap.keys m) : GoMap.keys (GoMap.set m k v) = GoMap.keys m ++ [k] := by
  induction m with
  | nil => rfl
  | cons hd tl ih =>
    obtain ⟨k', v'⟩ := hd
    simp only [GoMap.keys, List.map_cons, List.mem_cons, not_or] at h
    have h1 : ¬ k' = k := fun e => h.1 e.symm
    have := ih h.2
    simp only [GoMap.keys] at this
    simp [GoMap.set, GoMap.keys, h1, this]

theorem GoMap.nodup_keys_set {β : Type} (m : GoMap β) (k : String) (v : β)
    (h : (GoMap.keys m).Nodup) : (GoMap.keys (GoMap.set m k v)).Nodup := by
  by_cases hk : k ∈ GoMap.keys m
  · rw [GoMap.keys_set_of_mem m k v hk]
    exact h
  · rw [GoMap.keys_set_of_not_mem m k v hk]
    exact List.Nodup.append h (List.nodup_singleton k) (by simpa using hk)

theorem GoMap.set_get_self {β : Type} (m : GoMap β) (k : String) (v : β)
    (h : GoMap.get m k = some v) : GoMap.set m k v = m := by
  induction m with
  | nil => simp [GoMap.get] at h
  | cons hd tl ih =>
    obtain ⟨k', v'⟩ := hd
    by_cases h1 : k' = k
    · simp only [GoMap.get, h1, if_true, Option.some.injEq] at h
      simp [GoMap.set, h1, h]
    · simp only [GoMap.get, h1, if_false] at h
      simp [GoMap.set, h1, ih h]

theorem GoMap.get_of_mem_nodup {β : Type} (m : GoMap β) (k : String) (v : β)
    (hn : (GoMap.keys m).Nodup) (h : (k, v) ∈ m) : GoMap.get m k = some v := by
  induction m with
  | nil => simp at h
  | cons hd tl ih =>
    obtain ⟨k', v'⟩ := hd
    simp only [GoMap.keys, List.map_cons, List.nodup_cons] at hn
    rcases List.mem_cons.mp h with h | h
    · cases h
      simp [GoMap.get]
    · have hk : k ∈ GoMap.keys tl := List.mem_map.mpr ⟨(k, v), h, rfl⟩
      have h1 : ¬ k' = k := fun e => hn.1 (e ▸ hk)
      simp only [GoMap.get, h1, if_false]
      exact ih hn.2 h

theorem GoMap.mem_of_get {β : Type} (m : GoMap β) (k : String) (v : β)
    (h : GoMap.get m k = some v) : (k, v) ∈ m := by
  induction m with
  | nil => simp [GoMap.get] at h
  | cons hd tl ih =>
    obtain ⟨k', v'⟩ := hd
    by_cases h1 : k' = k
    · simp only [GoMap.get, h1, if_true, Option.some.injEq] at h
      simp [h1, h]
    · simp only [GoMap.get, h1, if_false] at h
      exact List.mem_cons_of_mem _ (ih h)


/-! ## Basic facts about the heap -/

theorem Heap.read_write (h : Heap) (a b : Addr) (k : String) (v : Val) :
    Heap.read (Heap.write h a k v) b
      = if b = a then (Heap.read h a).map (fun m => GoMap.set m k v) else Heap.read h b := by
  unfold Heap.write Heap.read
  cases hm : h[a]? with
  | none =>
    by_cases e : b = a
    · subst e
      simp [hm]
    · simp [e]
  | some m =>
    by_cases e : b = a
    · subst e
      have hlt : b < h.length := (List.getElem?_eq_some_iff.mp hm).1
      simp [List.getElem?_set, hlt]
    · simp only [e, if_false]
      rw [List.getElem?_set_ne (Ne.symm e)]

theorem Heap.length_write (h : Heap) (a : Addr) (k : String) (v : Val) :
    (Heap.write h a k v).length = h.length := by
  unfold Heap.write
  cases h[a]? <;> simp

theorem Heap.get_eq (h : Heap) (a : Addr) (k : String) :
    Heap.get h a k = (Heap.read h a).bind (fun m => GoMap.get m k) := by
  unfold Heap.get Heap.read
  cases h[a]? <;> rfl

theorem Heap.get_write_same (h : Heap) (a : Addr) (k : String) (v : Val)
    (ha : a < h.length) : Heap.get (Heap.write h a k v) a k = some v := by
  rw [Heap.get_eq, Heap.read_write]
  have : ∃ m, Heap.read h a = some m := ⟨h[a], by simp [Heap.read, ha]⟩
  obtain ⟨m, hm⟩ := this
  simp [hm, GoMap.get_set_same]

theorem Heap.get_write_ne_key (h : Heap) (a b : Addr) (k k2 : String) (v : Val)
    (hk : k ≠ k2) : Heap.get (Heap.write h a k v) b k2 = Heap.get h b k2 := by
  rw [Heap.get_eq, Heap.get_eq, Heap.read_write]
  by_cases e : b = a
  · subst e
    cases hm : Heap.read h b with
    | none => simp
    | some m => simp [GoMap.get_set_other _ _ _ _ hk]
  · simp [e]

theorem Heap.read_of_extends (h h2 : Heap) (hp : h <+: h2) (a : Addr) (ha : a < h.length) :
    Heap.read h2 a = Heap.read h a := by
  obtain ⟨t, rfl⟩ := hp
  unfold Heap.read
  exact List.getElem?_append_left ha

theorem Heap.get_of_extends (h h2 : Heap) (hp : h <+: h2) (a : Addr) (k : String)
    (ha : a < h.length) : Heap.get h2 a k = Heap.get h a k := by
  rw [Heap.get_eq, Heap.get_eq, Heap.read_of_extends h h2 hp a ha]

theorem Heap.get_some_lt (h : Heap) (a : Addr) (k : String) (v : Val)
    (hg : Heap.get h a k = some v) : a < h.length := by
  unfold Heap.get at hg
  cases hm : h[a]? with
  | none => simp [hm] at hg
  | some m => exact (List.getElem?_eq_some_iff.mp hm).1

theorem Heap.alloc_fst (h : Heap) (m : GoMap Val) : (Heap.alloc h m).1 = h.length := rfl

theorem Heap.alloc_length (h : Heap) (m : GoMap Val) :
    (Heap.alloc h m).2.length = h.length + 1 := by
  simp [Heap.alloc]

theorem Heap.read_alloc (h : Heap) (m : GoMap Val) (a : Addr) :
    Heap.read (Heap.alloc h m).2 a = if a = h.length then some m else Heap.read h a := by
  unfold Heap.read Heap.alloc
  by_cases e : a = h.length
  · subst e
    simp
  · simp only [e, if_false]
    rcases Nat.lt_or_gt_of_ne e with hlt | hgt
    · exact List.getElem?_append_left hlt
    · rw [List.getElem?_eq_none (by simp; omega), List.getElem?_eq_none (by omega)]

theorem Heap.get_alloc (h : Heap) (m : GoMap Val) (a : Addr) (k : String) :
    Heap.get (Heap.alloc h m).2 a k
      = if a = h.length then GoMap.get m k else Heap.get h a k := by
  rw [Heap.get_eq, Heap.get_eq, Heap.read_alloc]
  by_cases e : a = h.length <;> simp [e]

theorem Heap.prefix_alloc (h : Heap) (m : GoMap Val) : h <+: (Heap.alloc h m).2 :=
  List.prefix_append h [m]

theorem Heap.prefix_write (h h2 : Heap) (a : Addr) (k : String) (v : Val) (hp : h <+: h2)
    (ha : h.length ≤ a) : h <+: Heap.write h2 a k v := by
  unfold Heap.write
  cases hm : h2[a]? with
  | none => exact hp
  | some m =>
    obtain ⟨t, rfl⟩ := hp
    show h <+: (h ++ t).set a (GoMap.set m k v)
    rw [List.set_append_right _ _ ha]
    exact List.prefix_append _ _

/-- A path that reads a value still reads it once maps have been added. -/
theorem Heap.path_of_extends (h h2 : Heap) (hp : h <+: h2) :
    ∀ (ks : List String) (v r : Val), Heap.path h v ks = some r → Heap.path h2 v ks = some r
  | [], v, r, hr => by simpa [Heap.path] using hr
  | k :: ks, v, r, hr => by
    cases v with
    | ref a =>
      simp only [Heap.path] at hr ⊢
      cases hg : Heap.get h a k with
      | none => simp [hg] at hr
      | some x =>
        rw [Heap.get_of_extends h h2 hp a k (Heap.get_some_lt h a k x hg), hg]
        simp only [hg] at hr
        exact Heap.path_of_extends h h2 hp ks x r hr
    | str _ => simp [Heap.path] at hr
    | int _ => simp [Heap.path] at hr
    | bool _ => simp [Heap.path] at hr
    | list _ => simp [Heap.path] at hr

/-- Writing a key leaves every path that does not go through that key as it
was, whichever map is written. -/
theorem Heap.path_write_of_not_mem (h : Heap) (a : Addr) (k : String) (x : Val) :
    ∀ (ks : List String) (v : Val), k ∉ ks →
      Heap.path (Heap.write h a k x) v ks = Heap.path h v ks
  | [], v, _ => by simp [Heap.path]
  | k2 :: ks, v, hk => by
    simp only [List.mem_cons, not_or] at hk
    cases v with
    | ref b =>
      simp only [Heap.path]
      rw [Heap.get_write_ne_key h a b k k2 x hk.1]
      cases hg : Heap.get h b k2 with
      | none => rfl
      | some y => exact Heap.path_write_of_not_mem h a k x ks y hk.2
    | str _ => simp [Heap.path]
    | int _ => simp [Heap.path]
    | bool _ => simp [Heap.path]
    | list _ => simp [Heap.path]

theorem Heap.path_write_same (h : Heap) (a : Addr) (k : String) (x : Val) (ks : List String)
    (ha : a < h.length) (hk : k ∉ ks) :
    Heap.path (Heap.write h a k x) (Val.ref a) (k :: ks) = Heap.path h x ks := by
  simp only [Heap.path]
  rw [Heap.get_write_same h a k x ha]
  exact Heap.path_write_of_not_mem h a k x ks x hk


/-! ## The first loop of `loadNetworkCharts` -/

theorem visit_eq (networkCharts : GoMap networkChart) (h : Heap) (n : SimulatedNetwork) :
    loadNetworkCharts.visit (networkCharts, h) n
      = (loadNetworkCharts.record networkCharts (loadNetworkCharts.call n h).1,
          (loadNetworkCharts.call n h).2) := by
  unfold loadNetworkCharts.visit loadNetworkCharts.call loadNetworkCharts.record
  rcases hn : n h with ⟨⟨name, vals⟩, h1⟩
  cases vals with
  | none =>
    simp only [hn]
    cases hg : GoMap.get networkCharts name <;> rfl
  | some a =>
    simp only [hn]
    cases hg : GoMap.get networkCharts name <;> rfl

theorem visit_foldl (networks : List SimulatedNetwork) (networkCharts : GoMap networkChart)
    (h : Heap) :
    networks.foldl loadNetworkCharts.visit (networkCharts, h)
      = ((loadNetworkCharts.calls networks h).foldl loadNetworkCharts.record networkCharts,
          loadNetworkCharts.heapAfterCalls networks h) := by
  induction networks generalizing networkCharts h with
  | nil => rfl
  | cons n rest ih =>
    rw [List.foldl_cons, visit_eq, ih]
    rfl

theorem record_get_same (acc : GoMap networkChart) (call : String × Addr) :
    GoMap.get (loadNetworkCharts.record acc call) call.1 =
      match GoMap.get acc call.1 with
      | none => some { Replicas := 1, Values := call.2 }
      | some present => some { present with Replicas := present.Replicas + 1 } := by
  unfold loadNetworkCharts.record
  cases hg : GoMap.get acc call.1 with
  | none => simp only [GoMap.get_set_same]
  | some present => simp only [GoMap.get_set_same]

theorem record_get_other (acc : GoMap networkChart) (call : String × Addr) (c : String)
    (h : call.1 ≠ c) :
    GoMap.get (loadNetworkCharts.record acc call) c = GoMap.get acc c := by
  unfold loadNetworkCharts.record
  cases hg : GoMap.get acc call.1 with
  | none => simp only [GoMap.get_set_other _ _ _ _ h]
  | some present => simp only [GoMap.get_set_other _ _ _ _ h]

theorem record_nodup (acc : GoMap networkChart) (call : String × Addr)
    (h : (GoMap.keys acc).Nodup) : (GoMap.keys (loadNetworkCharts.record acc call)).Nodup := by
  unfold loadNetworkCharts.record
  cases hg : GoMap.get acc call.1 with
  | none => exact GoMap.nodup_keys_set _ _ _ h
  | some present => exact GoMap.nodup_keys_set _ _ _ h

theorem record_foldl_nodup (calls : List (String × Addr)) (acc : GoMap networkChart)
    (h : (GoMap.keys acc).Nodup) :
    (GoMap.keys (calls.foldl loadNetworkCharts.record acc)).Nodup := by
  induction calls generalizing acc with
  | nil => exact h
  | cons n rest ih => exact ih _ (record_nodup acc n h)

/-- What the first loop leaves under the key `c`: the entry already there with
its replicas increased by the number of calls that returned `c`, or else the
map of the first call that returned `c` with that number as replicas. -/
theorem record_foldl_get (calls : List (String × Addr)) (acc : GoMap networkChart)
    (c : String) :
    GoMap.get (calls.foldl loadNetworkCharts.record acc) c =
      match GoMap.get acc c with
      | some present =>
        some { present with Replicas := present.Replicas + (replicasOf c calls : Int) }
      | none =>
        match firstCall c calls with
        | none => none
        | some a => some { Replicas := (replicasOf c calls : Int), Values := a } := by
  induction calls generalizing acc with
  | nil =>
    cases hg : GoMap.get acc c with
    | none => simp [firstCall, hg]
    | some present => simp [replicasOf, hg]
  | cons n rest ih =>
    rw [List.foldl_cons, ih]
    by_cases hn : n.1 = c
    · have hs := record_get_same acc n
      rw [hn] at hs
      rw [hs]
      cases hg : GoMap.get acc c with
      | none =>
        simp only [firstCall, replicasOf, List.find?_cons, List.filter_cons, hn, decide_True,
          if_true, List.length_cons, Nat.cast_add, Nat.cast_one, Option.map_some']
        rw [add_comm]
      | some present =>
        simp only [replicasOf, List.filter_cons, hn, decide_True, if_true, List.length_cons,
          Nat.cast_add, Nat.cast_one]
        congr 2
        ring
    · rw [record_get_other acc n c hn]
      simp only [firstCall, replicasOf, List.find?_cons, List.filter_cons, hn, decide_False]
      rfl

theorem firstCall_mem (c : String) (calls : List (String × Addr)) (a : Addr)
    (h : firstCall c calls = some a) : (c, a) ∈ calls := by
  unfold firstCall at h
  cases hf : calls.find? (fun call => decide (call.1 = c)) with
  | none => simp [hf] at h
  | some m =>
    have h1 : m.1 = c := by simpa using List.find?_some hf
    have h2 := List.mem_of_find?_eq_some hf
    simp only [hf, Option.map_some', Option.some.injEq] at h
    rw [← h1, ← h]
    exact h2

theorem firstCall_eq_none (c : String) (calls : List (String × Addr))
    (h : ∀ call ∈ calls, call.1 ≠ c) : firstCall c calls = none := by
  unfold firstCall
  rw [Option.map_eq_none', List.find?_eq_none]
  intro n hn
  simpa using h n hn

/-- The entries the first loop leaves: one per returned name, holding the map
of the first call that returned the name and the number of calls that did. -/
theorem record_foldl_mem (calls : List (String × Addr)) (e : String × networkChart) :
    e ∈ calls.foldl loadNetworkCharts.record [] ↔
      firstCall e.1 calls = some e.2.Values ∧ e.2.Replicas = (replicasOf e.1 calls : Int) := by
  have hn := record_foldl_nodup calls [] List.nodup_nil
  have hg := record_foldl_get calls [] e.1
  simp only [GoMap.get] at hg
  constructor
  · intro hm
    have := GoMap.get_of_mem_nodup _ e.1 e.2 hn hm
    rw [this] at hg
    cases hf : firstCall e.1 calls with
    | none => simp [hf] at hg
    | some a =>
      simp only [hf, Option.some.injEq] at hg
      rw [hg]
      exact ⟨rfl, rfl⟩
  · rintro ⟨hf, hr⟩
    simp only [hf] at hg
    have : e.2 = { Replicas := (replicasOf e.1 calls : Int), Values := e.2.Values } := by
      cases h2 : e.2
      simp only [h2] at hr
      simp [hr]
    rw [← this] at hg
    exact GoMap.mem_of_get _ e.1 e.2 hg

theorem call_wellBehaved (n : SimulatedNetwork) (size : Nat) (hn : n.WellBehaved size)
    (h : Heap) (hs : size ≤ h.length) :
    h <+: (loadNetworkCharts.call n h).2 ∧
      (loadNetworkCharts.call n h).1.2 < (loadNetworkCharts.call n h).2.length := by
  obtain ⟨hp, hv⟩ := hn h hs
  unfold loadNetworkCharts.call
  rcases hr : n h with ⟨⟨name, vals⟩, h1⟩
  rw [hr] at hp hv
  cases vals with
  | none =>
    simp only [Heap.alloc]
    exact ⟨hp.trans (List.prefix_append _ _), by simp⟩
  | some a => exact ⟨hp, hv a rfl⟩

theorem heapAfterCalls_extends (networks : List SimulatedNetwork) (size : Nat)
    (hw : ∀ n ∈ networks, n.WellBehaved size) (h : Heap) (hs : size ≤ h.length) :
    h <+: loadNetworkCharts.heapAfterCalls networks h := by
  induction networks generalizing h with
  | nil => exact List.prefix_refl h
  | cons n rest ih =>
    have h1 := (call_wellBehaved n size (hw n (List.mem_cons_self _ _)) h hs).1
    exact h1.trans (ih (fun m hm => hw m (List.mem_cons_of_mem _ hm)) _
      (le_trans hs h1.length_le))

theorem calls_valid (networks : List SimulatedNetwork) (size : Nat)
    (hw : ∀ n ∈ networks, n.WellBehaved size) (h : Heap) (hs : size ≤ h.length) :
    ∀ call ∈ loadNetworkCharts.calls networks h,
      call.2 < (loadNetworkCharts.heapAfterCalls networks h).length := by
  induction networks generalizing h with
  | nil => intro call hc; simp [loadNetworkCharts.calls] at hc
  | cons n rest ih =>
    intro call hc
    have hrest : ∀ m ∈ rest, m.WellBehaved size := fun m hm => hw m (List.mem_cons_of_mem _ hm)
    have h0 := call_wellBehaved n size (hw n (List.mem_cons_self _ _)) h hs
    have hs2 : size ≤ (loadNetworkCharts.call n h).2.length := le_trans hs h0.1.length_le
    simp only [loadNetworkCharts.calls, List.mem_cons] at hc
    rcases hc with hc | hc
    · subst hc
      have h2 := (heapAfterCalls_extends rest size hrest (loadNetworkCharts.call n h).2 hs2).length_le
      exact lt_of_lt_of_le h0.2 h2
    · exact ih hrest _ hs2 call hc

theorem WellBehaved.mono (n : SimulatedNetwork) (size size2 : Nat) (hn : n.WellBehaved size)
    (hle : size ≤ size2) : n.WellBehaved size2 :=
  fun h hs => hn h (le_trans hle hs)

theorem sharedNetwork_wellBehaved (name : String) (a : Addr) (size : Nat) (ha : a < size) :
    (sharedNetwork name a).WellBehaved size := by
  intro h hs
  refine ⟨List.prefix_refl h, ?_⟩
  intro b hb
  simp only [sharedNetwork, Option.some.injEq] at hb
  subst hb
  exact lt_of_lt_of_le ha hs

theorem nilNetwork_wellBehaved (name : String) (size : Nat) :
    (nilNetwork name).WellBehaved size := by
  intro h _
  exact ⟨List.prefix_refl h, fun b hb => by simp [nilNetwork] at hb⟩

theorem DefaultGeth_wellBehaved (size : Nat) : DefaultGeth.WellBehaved size := by
  intro h _
  refine ⟨Heap.prefix_alloc h [], ?_⟩
  intro b hb
  simp only [DefaultGeth, Option.some.injEq] at hb
  subst hb
  simp [DefaultGeth, Heap.alloc]

theorem gethResources_extends (cpu memory : String) (h h2 : Heap) (hp : h <+: h2) :
    h <+: (gethResources cpu memory h2).2 := by
  unfold gethResources
  exact ((hp.trans (Heap.prefix_alloc _ _)).trans (Heap.prefix_alloc _ _)).trans
    (Heap.prefix_alloc _ _)

theorem PerformanceGeth_wellBehaved (size : Nat) : PerformanceGeth.WellBehaved size := by
  intro h _
  have h1 : h <+: (Heap.alloc h []).2 := Heap.prefix_alloc h []
  have hle : h.length ≤ (Heap.alloc h []).1 := le_refl _
  constructor
  · unfold PerformanceGeth
    apply Heap.prefix_write _ _ _ _ _ _ hle
    apply List.IsPrefix.trans _ (Heap.prefix_alloc _ _)
    apply Heap.prefix_write _ _ _ _ _ _ hle
    exact gethResources_extends _ _ _ _ h1
  · intro b hb
    simp only [PerformanceGeth, Option.some.injEq] at hb
    subst hb
    simp only [PerformanceGeth, gethResources, Heap.length_write, Heap.alloc_length,
      Heap.alloc_fst]
    unfold Addr at *
    omega

theorem RealisticGeth_wellBehaved (size : Nat) : RealisticGeth.WellBehaved size := by
  intro h _
  have h1 : h <+: (Heap.alloc h []).2 := Heap.prefix_alloc h []
  have hle : h.length ≤ (Heap.alloc h []).1 := le_refl _
  constructor
  · unfold RealisticGeth
    apply Heap.prefix_write _ _ _ _ _ _ hle
    apply List.IsPrefix.trans _ (Heap.prefix_alloc _ _)
    apply Heap.prefix_write _ _ _ _ _ _ hle
    exact gethResources_extends _ _ _ _ h1
  · intro b hb
    simp only [RealisticGeth, Option.some.injEq] at hb
    subst hb
    simp only [RealisticGeth, gethResources, Heap.length_write, Heap.alloc_length,
      Heap.alloc_fst]
    unfold Addr at *
    omega


/-! ## The second loop of `loadNetworkCharts` -/

theorem store_foldl_fst (entries : GoMap networkChart) (charts : Charts Addr) (h : Heap) :
    (entries.foldl loadNetworkCharts.store (charts, h)).1
      = entries.foldl (fun (c : Charts Addr) e =>
          GoMap.set c e.1 { Index := 1, Values := some e.2.Values }) charts := by
  induction entries generalizing charts h with
  | nil => rfl
  | cons e rest ih =>
    rw [List.foldl_cons, List.foldl_cons]
    exact ih _ _

theorem store_foldl_snd (entries : GoMap networkChart) (charts : Charts Addr) (h : Heap) :
    (entries.foldl loadNetworkCharts.store (charts, h)).2
      = entries.foldl (fun (h : Heap) e =>
          Heap.write h e.2.Values "replicas" (Val.int e.2.Replicas)) h := by
  induction entries generalizing charts h with
  | nil => rfl
  | cons e rest ih =>
    rw [List.foldl_cons, List.foldl_cons]
    exact ih _ _

/-- The chart the second loop leaves under the key `c`, for network charts
with distinct keys: the stored network chart, holding the network chart's own
map, or else the chart already there. -/
theorem store_charts_get (entries : GoMap networkChart) (charts : Charts Addr) (c : String)
    (h : (GoMap.keys entries).Nodup) :
    GoMap.get (entries.foldl (fun (c : Charts Addr) e =>
        GoMap.set c e.1 { Index := 1, Values := some e.2.Values }) charts) c =
      match GoMap.get entries c with
      | some nc => some { Index := 1, Values := some nc.Values }
      | none => GoMap.get charts c := by
  induction entries generalizing charts with
  | nil => rfl
  | cons hd tl ih =>
    obtain ⟨k, nc⟩ := hd
    simp only [GoMap.keys, List.map_cons, List.nodup_cons] at h
    rw [List.foldl_cons, ih _ h.2]
    by_cases hk : k = c
    · subst hk
      rw [GoMap.get_eq_none_of_not_mem tl k h.1]
      simp [GoMap.get, GoMap.get_set_same]
    · simp only [GoMap.get, hk, if_false]
      rw [GoMap.get_set_other _ _ _ _ hk]

/-- The second loop writes no key other than "replicas". -/
theorem store_heap_get_other (entries : GoMap networkChart) (h : Heap) (b : Addr)
    (k : String) (hk : k ≠ "replicas") :
    Heap.get (entries.foldl (fun (h : Heap) e =>
        Heap.write h e.2.Values "replicas" (Val.int e.2.Replicas)) h) b k = Heap.get h b k := by
  induction entries generalizing h with
  | nil => rfl
  | cons e rest ih =>
    rw [List.foldl_cons, ih, Heap.get_write_ne_key _ _ _ _ _ _ (Ne.symm hk)]

/-- The second loop leaves every path that does not go through "replicas" as
it was. -/
theorem store_heap_path (entries : GoMap networkChart) (h : Heap) (v : Val)
    (ks : List String) (hk : "replicas" ∉ ks) :
    Heap.path (entries.foldl (fun (h : Heap) e =>
        Heap.write h e.2.Values "replicas" (Val.int e.2.Replicas)) h) v ks = Heap.path h v ks := by
  induction entries generalizing h with
  | nil => rfl
  | cons e rest ih =>
    rw [List.foldl_cons, ih, Heap.path_write_of_not_mem _ _ _ _ _ _ hk]

/-- The second loop leaves a map no network chart holds as it was. -/
theorem store_heap_read (entries : GoMap networkChart) (h : Heap) (b : Addr)
    (hb : ∀ e ∈ entries, e.2.Values ≠ b) :
    Heap.read (entries.foldl (fun (h : Heap) e =>
        Heap.write h e.2.Values "replicas" (Val.int e.2.Replicas)) h) b = Heap.read h b := by
  induction entries generalizing h with
  | nil => rfl
  | cons e rest ih =>
    rw [List.foldl_cons, ih _ (fun e2 he2 => hb e2 (List.mem_cons_of_mem _ he2)),
      Heap.read_write]
    simp [Ne.symm (hb e (List.mem_cons_self _ _))]

/-- The second loop leaves, under "replicas" of a map some network chart
holds, the replicas of one of the network charts holding it. -/
theorem store_heap_replicas_some (entries : GoMap networkChart) (h : Heap) (b : Addr)
    (hb : b < h.length) (hex : ∃ e ∈ entries, e.2.Values = b) :
    ∃ e ∈ entries, e.2.Values = b ∧
      Heap.get (entries.foldl (fun (h : Heap) e =>
          Heap.write h e.2.Values "replicas" (Val.int e.2.Replicas)) h) b "replicas"
        = some (Val.int e.2.Replicas) := by
  induction entries generalizing h with
  | nil =>
    obtain ⟨e, he, -⟩ := hex
    exact absurd he (List.not_mem_nil _)
  | cons e rest ih =>
    rw [List.foldl_cons]
    by_cases hrest : ∃ e2 ∈ rest, e2.2.Values = b
    · obtain ⟨e2, he2, hv2, hg2⟩ := ih (Heap.write h e.2.Values "replicas" (Val.int e.2.Replicas))
        (by rw [Heap.length_write]; exact hb) hrest
      exact ⟨e2, List.mem_cons_of_mem _ he2, hv2, hg2⟩
    · have hnone : ∀ e2 ∈ rest, e2.2.Values ≠ b := fun e2 he2 hv => hrest ⟨e2, he2, hv⟩
      have hbe : e.2.Values = b := by
        obtain ⟨e2, he2, hv2⟩ := hex
        rcases List.mem_cons.mp he2 with h1 | h1
        · exact h1 ▸ hv2
        · exact absurd hv2 (hnone e2 h1)
      refine ⟨e, List.mem_cons_self _ _, hbe, ?_⟩
      rw [Heap.get_eq, store_heap_read rest _ b hnone, ← Heap.get_eq, hbe]
      exact Heap.get_write_same h b _ _ hb

theorem GoMap.get_perm {β : Type} (m m2 : GoMap β) (hp : m2.Perm m)
    (hn : (GoMap.keys m).Nodup) (k : String) : GoMap.get m2 k = GoMap.get m k := by
  have hn2 : (GoMap.keys m2).Nodup := (hp.map Prod.fst).nodup_iff.mpr hn
  cases hg : GoMap.get m k with
  | some v =>
    exact GoMap.get_of_mem_nodup m2 k v hn2 (hp.mem_iff.mpr (GoMap.mem_of_get m k v hg))
  | none =>
    apply GoMap.get_eq_none_of_not_mem
    intro hk
    have hk2 : k ∈ GoMap.keys m := (hp.map Prod.fst).mem_iff.mp hk
    obtain ⟨v, hv⟩ := GoMap.get_isSome_of_mem m k hk2
    rw [hg] at hv
    exact Option.noConfusion hv


/-! ## `loadNetworkCharts` -/

theorem loadNetworkCharts_eq (rangeOrder : GoMap networkChart → GoMap networkChart)
    (optionalNamespacePrefix : String) (charts : Charts Addr)
    (networks : List SimulatedNetwork) (h : Heap) :
    loadNetworkCharts rangeOrder optionalNamespacePrefix charts networks h =
      (if optionalNamespacePrefix ≠ "" then optionalNamespacePrefix else "plugin",
        (rangeOrder (loadNetworkCharts.networkCharts networks h)).foldl
          (fun (c : Charts Addr) e =>
            GoMap.set c e.1 { Index := 1, Values := some e.2.Values }) charts,
        (rangeOrder (loadNetworkCharts.networkCharts networks h)).foldl
          (fun (h : Heap) e => Heap.write h e.2.Values "replicas" (Val.int e.2.Replicas))
          (loadNetworkCharts.heapAfterCalls networks h)) := by
  unfold loadNetworkCharts loadNetworkCharts.networkCharts
  simp only [visit_foldl]
  rw [← store_foldl_fst _ charts (loadNetworkCharts.heapAfterCalls networks h),
    ← store_foldl_snd _ charts (loadNetworkCharts.heapAfterCalls networks h)]

theorem networkCharts_nodup (networks : List SimulatedNetwork) (h : Heap) :
    (GoMap.keys (loadNetworkCharts.networkCharts networks h)).Nodup :=
  record_foldl_nodup _ [] List.nodup_nil

theorem networkCharts_get (networks : List SimulatedNetwork) (h : Heap) (c : String) :
    GoMap.get (loadNetworkCharts.networkCharts networks h) c =
      match firstCall c (loadNetworkCharts.calls networks h) with
      | none => none
      | some a => some {
          Replicas := (replicasOf c (loadNetworkCharts.calls networks h) : Int), Values := a } := by
  unfold loadNetworkCharts.networkCharts
  rw [record_foldl_get]
  rfl

/-- The chart `loadNetworkCharts` leaves under every key `c`: for a name some
network returned, index 1 and the very map the first such network returned; for
any other name, the chart that was there. -/
theorem loadNetworkCharts_get (rangeOrder : GoMap networkChart → GoMap networkChart)
    (hr : RangeOrder rangeOrder) (optionalNamespacePrefix : String) (charts : Charts Addr)
    (networks : List SimulatedNetwork) (h : Heap) (c : String) :
    GoMap.get (loadNetworkCharts rangeOrder optionalNamespacePrefix charts networks h).2.1 c =
      match firstCall c (loadNetworkCharts.calls networks h) with
      | some a => some { Index := 1, Values := some a }
      | none => GoMap.get charts c := by
  rw [loadNetworkCharts_eq]
  simp only
  have hn := networkCharts_nodup networks h
  have hp := hr (loadNetworkCharts.networkCharts networks h)
  rw [store_charts_get _ _ _ ((hp.map Prod.fst).nodup_iff.mpr hn),
    GoMap.get_perm _ _ hp hn, networkCharts_get]
  cases firstCall c (loadNetworkCharts.calls networks h) <;> rfl

/-- `loadNetworkCharts` writes no key other than "replicas": every other key of
every map reads as it did once the networks had been called. -/
theorem loadNetworkCharts_get_other (rangeOrder : GoMap networkChart → GoMap networkChart)
    (optionalNamespacePrefix : String) (charts : Charts Addr)
    (networks : List SimulatedNetwork) (h : Heap) (b : Addr) (k : String)
    (hk : k ≠ "replicas") :
    Heap.get (loadNetworkCharts rangeOrder optionalNamespacePrefix charts networks h).2.2 b k
      = Heap.get (loadNetworkCharts.heapAfterCalls networks h) b k := by
  rw [loadNetworkCharts_eq]
  exact store_heap_get_other _ _ _ _ hk

theorem loadNetworkCharts_path (rangeOrder : GoMap networkChart → GoMap networkChart)
    (optionalNamespacePrefix : String) (charts : Charts Addr)
    (networks : List SimulatedNetwork) (h : Heap) (v : Val) (ks : List String)
    (hk : "replicas" ∉ ks) :
    Heap.path (loadNetworkCharts rangeOrder optionalNamespacePrefix charts networks h).2.2 v ks
      = Heap.path (loadNetworkCharts.heapAfterCalls networks h) v ks := by
  rw [loadNetworkCharts_eq]
  exact store_heap_path _ _ _ _ hk

/-- `loadNetworkCharts` leaves a map that no chart name keeps as it was once
the networks had been called. -/
theorem loadNetworkCharts_read (rangeOrder : GoMap networkChart → GoMap networkChart)
    (hr : RangeOrder rangeOrder) (optionalNamespacePrefix : String) (charts : Charts Addr)
    (networks : List SimulatedNetwork) (h : Heap) (b : Addr)
    (hb : ∀ c, firstCall c (loadNetworkCharts.calls networks h) ≠ some b) :
    Heap.read (loadNetworkCharts rangeOrder optionalNamespacePrefix charts networks h).2.2 b
      = Heap.read (loadNetworkCharts.heapAfterCalls networks h) b := by
  rw [loadNetworkCharts_eq]
  apply store_heap_read
  intro e he hv
  have hm := (hr _).mem_iff.mp he
  unfold loadNetworkCharts.networkCharts at hm
  rw [record_foldl_mem] at hm
  exact hb e.1 (hv ▸ hm.1)

/-- C8: for every count and every values map, `PluginReplicas` returns a map in
which "replicas" is the count and every other key reads as in the input (nothing,
for a nil input); for a nil input the result is a new map, one the heap did not
hold, with the single key "replicas". The map returned for a non-nil input is
the input map itself, and no other map is touched. -/
theorem PluginReplicas_spec (count : Int) (values : Option Addr) (h : Heap)
    (hv : ∀ a, values = some a → a < h.length) :
    Heap.get (PluginReplicas count values h).2 (PluginReplicas count values h).1 "replicas"
      = some (Val.int count) ∧
    (∀ k, k ≠ "replicas" →
      Heap.get (PluginReplicas count values h).2 (PluginReplicas count values h).1 k
        = values.bind (fun a => Heap.get h a k)) ∧
    (values = none →
      Heap.read h (PluginReplicas count values h).1 = none ∧
      Heap.read (PluginReplicas count values h).2 (PluginReplicas count values h).1
        = some [("replicas", Val.int count)]) ∧
    (∀ a, values = some a → (PluginReplicas count values h).1 = a) ∧
    (∀ b, b < h.length → values ≠ some b →
      Heap.read (PluginReplicas count values h).2 b = Heap.read h b) := by
  cases values with
  | none =>
    have hlen : (h ++ [([] : GoMap Val)]).length = h.length + 1 := by simp
    have hr : Heap.read (Heap.write (h ++ [([] : GoMap Val)]) h.length "replicas" (Val.int count))
        h.length = some [("replicas", Val.int count)] := by
      rw [Heap.read_write]
      simp [Heap.read, GoMap.set]
    refine ⟨?_, ?_, ?_, ?_, ?_⟩
    · exact Heap.get_write_same _ _ _ _ (by rw [hlen]; exact Nat.lt_succ_self _)
    · intro k hk
      show Heap.get (Heap.write (h ++ [([] : GoMap Val)]) h.length "replicas" (Val.int count))
        h.length k = none
      rw [Heap.get_eq, hr]
      simp [GoMap.get, Ne.symm hk]
    · intro _
      exact ⟨by simp [Heap.read, PluginReplicas, Heap.alloc], hr⟩
    · intro a ha
      exact Option.noConfusion ha
    · intro b hb _
      show Heap.read (Heap.write (h ++ [([] : GoMap Val)]) h.length "replicas" (Val.int count)) b
        = Heap.read h b
      rw [Heap.read_write, if_neg (Nat.ne_of_lt hb)]
      exact Heap.read_of_extends h _ (List.prefix_append _ _) b hb
  | some a =>
    have ha := hv a rfl
    refine ⟨Heap.get_write_same h a _ _ ha, ?_, ?_, ?_, ?_⟩
    · intro k hk
      exact Heap.get_write_ne_key h a a _ k _ (Ne.symm hk)
    · intro hn
      exact Option.noConfusion hn
    · intro b hb
      cases hb
      rfl
    · intro b _ hne
      show Heap.read (Heap.write h a "replicas" (Val.int count)) b = Heap.read h b
      rw [Heap.read_write, if_neg (fun e => hne (by rw [e]))]

theorem PluginReplicas_spec_witness :
    Heap.get (PluginReplicas 2 (some 0) [[("replicas", Val.int 1), ("x", Val.str "y")]]).2
      (PluginReplicas 2 (some 0) [[("replicas", Val.int 1), ("x", Val.str "y")]]).1 "replicas"
      = some (Val.int 2) ∧
    (∀ k, k ≠ "replicas" →
      Heap.get (PluginReplicas 2 (some 0) [[("replicas", Val.int 1), ("x", Val.str "y")]]).2
        (PluginReplicas 2 (some 0) [[("replicas", Val.int 1), ("x", Val.str "y")]]).1 k
        = (some 0).bind
            (fun a => Heap.get [[("replicas", Val.int 1), ("x", Val.str "y")]] a k)) ∧
    ((some 0 : Option Addr) = none →
      Heap.read [[("replicas", Val.int 1), ("x", Val.str "y")]]
        (PluginReplicas 2 (some 0) [[("replicas", Val.int 1), ("x", Val.str "y")]]).1 = none ∧
      Heap.read (PluginReplicas 2 (some 0) [[("replicas", Val.int 1), ("x", Val.str "y")]]).2
        (PluginReplicas 2 (some 0) [[("replicas", Val.int 1), ("x", Val.str "y")]]).1
        = some [("replicas", Val.int 2)]) ∧
    (∀ a, some 0 = some a →
      (PluginReplicas 2 (some 0) [[("replicas", Val.int 1), ("x", Val.str "y")]]).1 = a) ∧
    (∀ b, b < [[("replicas", Val.int 1), ("x", Val.str "y")]].length → some 0 ≠ some b →
      Heap.read (PluginReplicas 2 (some 0) [[("replicas", Val.int 1), ("x", Val.str "y")]]).2 b
        = Heap.read [[("replicas", Val.int 1), ("x", Val.str "y")]] b) :=
  PluginReplicas_spec 2 (some 0) [[("replicas", Val.int 1), ("x", Val.str "y")]]
    (fun a ha => by cases ha; decide)

/-- C9: for every version and every values map, nil included, `PluginVersion`
returns a map whose plugin.image.version is the version and in which every
top-level key other than "plugin" reads as in the input. -/
theorem PluginVersion_spec (version : String) (values : Option Addr) (h : Heap)
    (hv : ∀ a, values = some a → a < h.length) :
    Heap.path (PluginVersion version values h).2 (Val.ref (PluginVersion version values h).1)
      ["plugin", "image", "version"] = some (Val.str version) ∧
    (∀ k, k ≠ "plugin" →
      Heap.get (PluginVersion version values h).2 (PluginVersion version values h).1 k
        = values.bind (fun a => Heap.get h a k)) := by
  have e1 : ∀ n : Nat, n ≠ n + 1 + 1 := fun n => by omega
  have e2 : ∀ n : Nat, n ≠ n + 1 := fun n => by omega
  cases values with
  | none =>
    constructor
    · simp only [PluginVersion]
      rw [Heap.path_write_same]
      · simp [Heap.path, Heap.get_alloc, Heap.alloc_fst, Heap.alloc_length, GoMap.get]
      · simp only [Heap.alloc_length, Heap.alloc_fst]
        unfold Addr at *
        omega
      · decide
    · intro k hk
      simp only [PluginVersion]
      rw [Heap.get_write_ne_key _ _ _ _ _ _ (Ne.symm hk)]
      simp [Heap.get_alloc, Heap.alloc_fst, Heap.alloc_length, GoMap.get, e1, e2]
  | some a =>
    have ha := hv a rfl
    constructor
    · simp only [PluginVersion]
      rw [Heap.path_write_same]
      · simp [Heap.path, Heap.get_alloc, Heap.alloc_fst, Heap.alloc_length, GoMap.get]
      · simp only [Heap.alloc_length]
        unfold Addr at *
        omega
      · decide
    · intro k hk
      simp only [PluginVersion]
      rw [Heap.get_write_ne_key _ _ _ _ _ _ (Ne.symm hk)]
      simp [Heap.get_alloc, Heap.alloc_fst, Heap.alloc_length, Nat.ne_of_lt ha,
        Nat.ne_of_lt (Nat.lt_succ_of_lt ha)]

theorem PluginVersion_spec_witness :
    Heap.path (PluginVersion "v1.2.3" (some 0) [[("plugin", Val.str "old"), ("db", Val.int 1)]]).2
      (Val.ref (PluginVersion "v1.2.3" (some 0)
        [[("plugin", Val.str "old"), ("db", Val.int 1)]]).1)
      ["plugin", "image", "version"] = some (Val.str "v1.2.3") ∧
    (∀ k, k ≠ "plugin" →
      Heap.get (PluginVersion "v1.2.3" (some 0) [[("plugin", Val.str "old"), ("db", Val.int 1)]]).2
        (PluginVersion "v1.2.3" (some 0) [[("plugin", Val.str "old"), ("db", Val.int 1)]]).1 k
        = (some 0 : Option Addr).bind
            (fun a => Heap.get [[("plugin", Val.str "old"), ("db", Val.int 1)]] a k)) :=
  PluginVersion_spec "v1.2.3" (some 0) [[("plugin", Val.str "old"), ("db", Val.int 1)]]
    (fun a ha => by cases ha; decide)


/-! ## The configuration templates -/

theorem NewPerformancePluginConfig_some (rangeOrder : GoMap networkChart → GoMap networkChart)
    (pluginValues : Addr) (optionalNamespacePrefix : String)
    (networks : List SimulatedNetwork) (h : Heap) :
    NewPerformancePluginConfig rangeOrder (some pluginValues) optionalNamespacePrefix networks h =
      some ({ NamespacePrefix := (loadNetworkCharts rangeOrder optionalNamespacePrefix
                (NewPerformancePluginConfig.base pluginValues h) networks
                (NewPerformancePluginConfig.prelude pluginValues h).2).1
              Charts := (loadNetworkCharts rangeOrder optionalNamespacePrefix
                (NewPerformancePluginConfig.base pluginValues h) networks
                (NewPerformancePluginConfig.prelude pluginValues h).2).2.1 },
        (loadNetworkCharts rangeOrder optionalNamespacePrefix
          (NewPerformancePluginConfig.base pluginValues h) networks
          (NewPerformancePluginConfig.prelude pluginValues h).2).2.2) := by
  simp only [NewPerformancePluginConfig, NewPerformancePluginConfig.prelude,
    NewPerformancePluginConfig.base]

theorem resourcesValue_length (cpu memory : String) (h : Heap) :
    (resourcesValue cpu memory h).2.length = h.length + 4 := by
  simp [resourcesValue, Heap.alloc_length]

theorem prelude_length (pluginValues : Addr) (h : Heap) :
    (NewPerformancePluginConfig.prelude pluginValues h).2.length = h.length + 13 := by
  simp [NewPerformancePluginConfig.prelude, Heap.alloc_length, resourcesValue_length,
    Heap.length_write]

theorem prelude_length_le (pluginValues : Addr) (h : Heap) :
    h.length ≤ (NewPerformancePluginConfig.prelude pluginValues h).2.length := by
  rw [prelude_length]
  exact Nat.le_add_right _ _

/-- The networks made over maps of the caller, and those returning nil, only
return maps: called in a heap holding the caller's maps, they leave every map as
it is and return a map of that heap. -/
theorem sharingNetworks_wellBehaved :
    (∀ n ∈ sharingNetworks, n.WellBehaved 1) ∧ (∀ n ∈ nestedNetworks, n.WellBehaved 2) ∧
      (sharedNetwork "geth" 0).WellBehaved 1 ∧
      (∀ n ∈ [nilNetwork "plugin", nilNetwork "mockserver"], n.WellBehaved 1) := by
  refine ⟨?_, ?_, sharedNetwork_wellBehaved _ _ _ (by decide), ?_⟩
  · intro n hn
    simp only [sharingNetworks, List.mem_cons, List.mem_singleton, List.not_mem_nil,
      or_false] at hn
    rcases hn with hn | hn | hn <;> subst hn <;>
      exact sharedNetwork_wellBehaved _ _ _ (by decide)
  · intro n hn
    simp only [nestedNetworks, List.mem_cons, List.mem_singleton, List.not_mem_nil,
      or_false] at hn
    rcases hn with hn | hn <;> subst hn <;> exact sharedNetwork_wellBehaved _ _ _ (by decide)
  · intro n hn
    simp only [List.mem_cons, List.mem_singleton, List.not_mem_nil, or_false] at hn
    rcases hn with hn | hn <;> subst hn <;> exact nilNetwork_wellBehaved _ _

theorem gethNetworks_wellBehaved (size : Nat) : ∀ n ∈ gethNetworks, n.WellBehaved size := by
  intro n hn
  simp only [gethNetworks, List.mem_cons, List.mem_singleton, List.not_mem_nil, or_false] at hn
  rcases hn with hn | hn | hn
  · exact hn ▸ DefaultGeth_wellBehaved size
  · exact hn ▸ PerformanceGeth_wellBehaved size
  · exact hn ▸ RealisticGeth_wellBehaved size

/-- C2, amended: first network wins. For every list of simulated networks
(functions that only build maps), every order of `range`, every chart map
handed to `loadNetworkCharts` and every chart name `c` in the list, with `a` the
map the first network named `c` returned (a new empty map for nil): the
resulting chart `c` is at index 1 and holds that very map; `loadNetworkCharts`
writes no key other than "replicas", in any map, and leaves untouched every map
that no chart name keeps, those returned by later networks of the same name
among them; "replicas" of the map `a` is the number of networks returning one of
the chart names that keep `a`. The networks only add maps to the heap, and
`loadNetworkCharts` is total: no input makes it fail. -/
theorem loadNetworkCharts_first_network_wins
    (rangeOrder : GoMap networkChart → GoMap networkChart) (hr : RangeOrder rangeOrder)
    (optionalNamespacePrefix : String) (charts : Charts Addr)
    (networks : List SimulatedNetwork) (h : Heap)
    (hw : ∀ n ∈ networks, n.WellBehaved h.length) (c : String) (a : Addr)
    (hc : firstCall c (loadNetworkCharts.calls networks h) = some a) :
    GoMap.get (loadNetworkCharts rangeOrder optionalNamespacePrefix charts networks h).2.1 c
      = some { Index := 1, Values := some a } ∧
    h <+: loadNetworkCharts.heapAfterCalls networks h ∧
    a < (loadNetworkCharts.heapAfterCalls networks h).length ∧
    (∀ b k, k ≠ "replicas" →
      Heap.get (loadNetworkCharts rangeOrder optionalNamespacePrefix charts networks h).2.2 b k
        = Heap.get (loadNetworkCharts.heapAfterCalls networks h) b k) ∧
    (∀ b, (∀ c2, firstCall c2 (loadNetworkCharts.calls networks h) ≠ some b) →
      Heap.read (loadNetworkCharts rangeOrder optionalNamespacePrefix charts networks h).2.2 b
        = Heap.read (loadNetworkCharts.heapAfterCalls networks h) b) ∧
    (∃ c2, firstCall c2 (loadNetworkCharts.calls networks h) = some a ∧
      Heap.get (loadNetworkCharts rangeOrder optionalNamespacePrefix charts networks h).2.2
        a "replicas"
        = some (Val.int (replicasOf c2 (loadNetworkCharts.calls networks h)))) := by
  have hvalid := calls_valid networks h.length hw h (le_refl _) (c, a) (firstCall_mem c _ a hc)
  refine ⟨?_, heapAfterCalls_extends networks h.length hw h (le_refl _), hvalid, ?_, ?_, ?_⟩
  · rw [loadNetworkCharts_get _ hr, hc]
  · intro b k hk
    exact loadNetworkCharts_get_other _ _ _ _ _ b k hk
  · intro b hb
    exact loadNetworkCharts_read _ hr _ _ _ _ b hb
  · rw [loadNetworkCharts_eq]
    have hmem : ∀ e, e ∈ rangeOrder (loadNetworkCharts.networkCharts networks h) ↔
        firstCall e.1 (loadNetworkCharts.calls networks h) = some e.2.Values ∧
          e.2.Replicas = (replicasOf e.1 (loadNetworkCharts.calls networks h) : Int) := by
      intro e
      rw [(hr _).mem_iff]
      exact record_foldl_mem _ e
    obtain ⟨e, he, hv, hg⟩ := store_heap_replicas_some
      (rangeOrder (loadNetworkCharts.networkCharts networks h))
      (loadNetworkCharts.heapAfterCalls networks h) a hvalid
      ⟨(c, networkChart.mk (replicasOf c (loadNetworkCharts.calls networks h) : Int) a),
        (hmem _).mpr ⟨hc, rfl⟩, rfl⟩
    have he2 := (hmem e).mp he
    refine ⟨e.1, hv ▸ he2.1, ?_⟩
    simp only
    rw [hg, he2.2]

theorem loadNetworkCharts_first_network_wins_witness :
    GoMap.get (loadNetworkCharts List.reverse "" [] gethNetworks [[]]).2.1 "geth"
      = some { Index := 1, Values := some 1 } ∧
    [[]] <+: loadNetworkCharts.heapAfterCalls gethNetworks [[]] ∧
    1 < (loadNetworkCharts.heapAfterCalls gethNetworks [[]]).length ∧
    (∀ b k, k ≠ "replicas" →
      Heap.get (loadNetworkCharts List.reverse "" [] gethNetworks [[]]).2.2 b k
        = Heap.get (loadNetworkCharts.heapAfterCalls gethNetworks [[]]) b k) ∧
    (∀ b, (∀ c2, firstCall c2 (loadNetworkCharts.calls gethNetworks [[]]) ≠ some b) →
      Heap.read (loadNetworkCharts List.reverse "" [] gethNetworks [[]]).2.2 b
        = Heap.read (loadNetworkCharts.heapAfterCalls gethNetworks [[]]) b) ∧
    (∃ c2, firstCall c2 (loadNetworkCharts.calls gethNetworks [[]]) = some 1 ∧
      Heap.get (loadNetworkCharts List.reverse "" [] gethNetworks [[]]).2.2 1 "replicas"
        = some (Val.int (replicasOf c2 (loadNetworkCharts.calls gethNetworks [[]])))) :=
  loadNetworkCharts_first_network_wins List.reverse (fun m => List.reverse_perm m) "" []
    gethNetworks [[]] (gethNetworks_wellBehaved _) "geth" 1 (by decide)

/-- Counterexample to C2 as stated: a caller's map `m` with `m["sub"] = sub`,
a network "a" returning `m` and a network "b" returning `sub`. The first network
named "a" returned `{"sub": {}}`; the values of the resulting chart "a" are
`{"sub": {"replicas": 1}, "replicas": 1}`, in either order of `range`: the map
under "sub" has gained a key, not only "replicas" of the values been added. -/
theorem loadNetworkCharts_first_network_wins_nested :
    firstCall "a" (loadNetworkCharts.calls nestedNetworks nestedHeap) = some 0 ∧
    Heap.snapshot nestedHeap 2 (Val.ref 0) = Value.map [("sub", Value.map [])] ∧
    (NewPluginConfig id none "" nestedNetworks nestedHeap).1.chartValues "a" = some 0 ∧
    Heap.snapshot (NewPluginConfig id none "" nestedNetworks nestedHeap).2 2 (Val.ref 0)
      = Value.map [("sub", Value.map [("replicas", Value.int 1)]), ("replicas", Value.int 1)] ∧
    (NewPluginConfig List.reverse none "" nestedNetworks nestedHeap).1.chartValues "a"
      = some 0 ∧
    Heap.snapshot (NewPluginConfig List.reverse none "" nestedNetworks nestedHeap).2 2
        (Val.ref 0)
      = Value.map [("sub", Value.map [("replicas", Value.int 1)]), ("replicas", Value.int 1)] :=
  ⟨rfl, rfl, rfl, rfl, rfl, rfl⟩


theorem resourcesValue_extends (cpu memory : String) (h : Heap) :
    h <+: (resourcesValue cpu memory h).2 := by
  unfold resourcesValue
  exact (((Heap.prefix_alloc _ _).trans (Heap.prefix_alloc _ _)).trans
    (Heap.prefix_alloc _ _)).trans (Heap.prefix_alloc _ _)

/-- The map literal `resourcesValue` builds reads the cpu and the memory under
resources.requests and under resources.limits. -/
theorem resourcesValue_paths (cpu memory : String) (h : Heap) :
    Heap.path (resourcesValue cpu memory h).2 (resourcesValue cpu memory h).1
      ["resources", "requests", "cpu"] = some (Val.str cpu) ∧
    Heap.path (resourcesValue cpu memory h).2 (resourcesValue cpu memory h).1
      ["resources", "requests", "memory"] = some (Val.str memory) ∧
    Heap.path (resourcesValue cpu memory h).2 (resourcesValue cpu memory h).1
      ["resources", "limits", "cpu"] = some (Val.str cpu) ∧
    Heap.path (resourcesValue cpu memory h).2 (resourcesValue cpu memory h).1
      ["resources", "limits", "memory"] = some (Val.str memory) := by
  have e1 : ∀ n : Nat, n ≠ n + 1 := fun n => by omega
  have e2 : ∀ n : Nat, n ≠ n + 1 + 1 := fun n => by omega
  have e3 : ∀ n : Nat, n + 1 ≠ n + 1 + 1 := fun n => by omega
  have e4 : ∀ n : Nat, n ≠ n + 1 + 1 + 1 := fun n => by omega
  have e5 : ∀ n : Nat, n + 1 ≠ n + 1 + 1 + 1 := fun n => by omega
  refine ⟨?_, ?_, ?_, ?_⟩ <;>
    simp [resourcesValue, Heap.path, Heap.get_alloc, Heap.alloc_fst, Heap.alloc_length,
      GoMap.get, e1, e2, e3, e4, e5]

theorem prelude_plugin_path (pluginValues : Addr) (h : Heap) (hv : pluginValues < h.length)
    (ks : List String) (r : Val) (h1 : "plugin" ∉ ks) (h2 : "db" ∉ ks)
    (hp : Heap.path (resourcesValue "2" "4096Mi" h).2 (resourcesValue "2" "4096Mi" h).1 ks
      = some r) :
    Heap.path (NewPerformancePluginConfig.prelude pluginValues h).2 (Val.ref pluginValues)
      ("plugin" :: ks) = some r := by
  unfold NewPerformancePluginConfig.prelude
  simp only
  apply Heap.path_of_extends _ _ (Heap.prefix_alloc _ _)
  apply Heap.path_of_extends _ _ (resourcesValue_extends _ _ _)
  rw [Heap.path_write_of_not_mem _ _ _ _ _ _ (by
    simp only [List.mem_cons, not_or]
    exact ⟨by decide, h2⟩)]
  apply Heap.path_of_extends _ _ (resourcesValue_extends _ _ _)
  rw [Heap.path_write_same _ _ _ _ _ (lt_of_lt_of_le hv (resourcesValue_extends _ _ _).length_le)
    h1]
  exact hp

theorem prelude_db_path (pluginValues : Addr) (h : Heap) (hv : pluginValues < h.length)
    (ks : List String) (r : Val) (h2 : "db" ∉ ks)
    (hp : ∀ h0 : Heap,
      Heap.path (resourcesValue "1" "2048Mi" h0).2 (resourcesValue "1" "2048Mi" h0).1 ks
        = some r) :
    Heap.path (NewPerformancePluginConfig.prelude pluginValues h).2 (Val.ref pluginValues)
      ("db" :: ks) = some r := by
  unfold NewPerformancePluginConfig.prelude
  simp only
  apply Heap.path_of_extends _ _ (Heap.prefix_alloc _ _)
  apply Heap.path_of_extends _ _ (resourcesValue_extends _ _ _)
  rw [Heap.path_write_same _ _ _ _ _ (by
    rw [resourcesValue_length, Heap.length_write, resourcesValue_length]
    exact Nat.lt_add_right 4 (Nat.lt_add_right 4 hv)) h2]
  exact hp _

theorem prelude_app_path (pluginValues : Addr) (h : Heap) (ks : List String) (r : Val)
    (hp : ∀ h0 : Heap,
      Heap.path (resourcesValue "1" "1024Mi" h0).2 (resourcesValue "1" "1024Mi" h0).1 ks
        = some r) :
    Heap.path (NewPerformancePluginConfig.prelude pluginValues h).2
      (Val.ref (NewPerformancePluginConfig.prelude pluginValues h).1) ("app" :: ks) = some r := by
  unfold NewPerformancePluginConfig.prelude
  simp only [Heap.path, Heap.get_alloc, Heap.alloc_fst, if_true, GoMap.get]
  exact Heap.path_of_extends _ _ (Heap.prefix_alloc _ _) _ _ _ (hp _)

/-- What `NewPerformancePluginConfig` has built when it comes to load the
network charts: the resources of the plugin, of the database and of the
mockserver. -/
theorem prelude_hasResources (pluginValues : Addr) (h : Heap) (hv : pluginValues < h.length) :
    Heap.hasResources (NewPerformancePluginConfig.prelude pluginValues h).2
      (Val.ref pluginValues) "plugin" "2" "4096Mi" ∧
    Heap.hasResources (NewPerformancePluginConfig.prelude pluginValues h).2
      (Val.ref pluginValues) "db" "1" "2048Mi" ∧
    Heap.hasResources (NewPerformancePluginConfig.prelude pluginValues h).2
      (Val.ref (NewPerformancePluginConfig.prelude pluginValues h).1) "app" "1" "1024Mi" := by
  refine ⟨⟨?_, ?_, ?_, ?_⟩, ⟨?_, ?_, ?_, ?_⟩, ⟨?_, ?_, ?_, ?_⟩⟩
  · exact prelude_plugin_path _ _ hv _ _ (by decide) (by decide) (resourcesValue_paths _ _ h).1
  · exact prelude_plugin_path _ _ hv _ _ (by decide) (by decide) (resourcesValue_paths _ _ h).2.1
  · exact prelude_plugin_path _ _ hv _ _ (by decide) (by decide)
      (resourcesValue_paths _ _ h).2.2.1
  · exact prelude_plugin_path _ _ hv _ _ (by decide) (by decide)
      (resourcesValue_paths _ _ h).2.2.2
  · exact prelude_db_path _ _ hv _ _ (by decide) (fun h0 => (resourcesValue_paths _ _ h0).1)
  · exact prelude_db_path _ _ hv _ _ (by decide) (fun h0 => (resourcesValue_paths _ _ h0).2.1)
  · exact prelude_db_path _ _ hv _ _ (by decide) (fun h0 => (resourcesValue_paths _ _ h0).2.2.1)
  · exact prelude_db_path _ _ hv _ _ (by decide) (fun h0 => (resourcesValue_paths _ _ h0).2.2.2)
  · exact prelude_app_path _ _ _ _ (fun h0 => (resourcesValue_paths _ _ h0).1)
  · exact prelude_app_path _ _ _ _ (fun h0 => (resourcesValue_paths _ _ h0).2.1)
  · exact prelude_app_path _ _ _ _ (fun h0 => (resourcesValue_paths _ _ h0).2.2.1)
  · exact prelude_app_path _ _ _ _ (fun h0 => (resourcesValue_paths _ _ h0).2.2.2)

/-- Resources that are there when `loadNetworkCharts` starts are still there
when it returns: the networks only add maps and the only key written is
"replicas". -/
theorem loadNetworkCharts_hasResources (rangeOrder : GoMap networkChart → GoMap networkChart)
    (optionalNamespacePrefix : String) (charts : Charts Addr)
    (networks : List SimulatedNetwork) (h : Heap)
    (hw : ∀ n ∈ networks, n.WellBehaved h.length) (v : Val) (root cpu memory : String)
    (hroot : root ≠ "replicas") (hres : Heap.hasResources h v root cpu memory) :
    Heap.hasResources
      (loadNetworkCharts rangeOrder optionalNamespacePrefix charts networks h).2.2
      v root cpu memory := by
  have hpre := heapAfterCalls_extends networks h.length hw h (le_refl _)
  have hk : ∀ a b : String, a ≠ "replicas" → b ≠ "replicas" →
      "replicas" ∉ [root, "resources", a, b] := by
    intro a b ha hb hm
    simp only [List.mem_cons, List.mem_singleton, List.not_mem_nil, or_false] at hm
    rcases hm with hm | hm | hm | hm
    · exact hroot hm.symm
    · exact absurd hm (by decide)
    · exact ha hm.symm
    · exact hb hm.symm
  obtain ⟨h1, h2, h3, h4⟩ := hres
  refine ⟨?_, ?_, ?_, ?_⟩
  · rw [loadNetworkCharts_path _ _ _ _ _ _ _ (hk _ _ (by decide) (by decide))]
    exact Heap.path_of_extends _ _ hpre _ _ _ h1
  · rw [loadNetworkCharts_path _ _ _ _ _ _ _ (hk _ _ (by decide) (by decide))]
    exact Heap.path_of_extends _ _ hpre _ _ _ h2
  · rw [loadNetworkCharts_path _ _ _ _ _ _ _ (hk _ _ (by decide) (by decide))]
    exact Heap.path_of_extends _ _ hpre _ _ _ h3
  · rw [loadNetworkCharts_path _ _ _ _ _ _ _ (hk _ _ (by decide) (by decide))]
    exact Heap.path_of_extends _ _ hpre _ _ _ h4

/-- C7, amended: for every non-nil `pluginValues`, every order of `range` and
every list of networks (functions that only build maps) none of whose chart
names is "plugin" or "mockserver", `NewPerformancePluginConfig` returns a config
in which the plugin chart's values have plugin.resources with requests and
limits of cpu "2" and memory "4096Mi" and db.resources with cpu "1" and memory
"2048Mi", and the mockserver chart's values have app.resources with cpu "1" and
memory "1024Mi". -/
theorem NewPerformancePluginConfig_resources
    (rangeOrder : GoMap networkChart → GoMap networkChart) (hr : RangeOrder rangeOrder)
    (pluginValues : Addr) (optionalNamespacePrefix : String)
    (networks : List SimulatedNetwork) (h : Heap) (hv : pluginValues < h.length)
    (hw : ∀ n ∈ networks, n.WellBehaved h.length)
    (hnames : ∀ call ∈ loadNetworkCharts.calls networks
        (NewPerformancePluginConfig.prelude pluginValues h).2,
      call.1 ≠ "plugin" ∧ call.1 ≠ "mockserver") :
    ∃ cfg h2 pluginVals mockVals,
      NewPerformancePluginConfig rangeOrder (some pluginValues) optionalNamespacePrefix
        networks h = some (cfg, h2) ∧
      cfg.chartValues "plugin" = some pluginVals ∧
      Heap.hasResources h2 (Val.ref pluginVals) "plugin" "2" "4096Mi" ∧
      Heap.hasResources h2 (Val.ref pluginVals) "db" "1" "2048Mi" ∧
      cfg.chartValues "mockserver" = some mockVals ∧
      Heap.hasResources h2 (Val.ref mockVals) "app" "1" "1024Mi" := by
  have hw2 : ∀ n ∈ networks, n.WellBehaved
      (NewPerformancePluginConfig.prelude pluginValues h).2.length :=
    fun n hn => WellBehaved.mono n _ _ (hw n hn) (prelude_length_le pluginValues h)
  obtain ⟨hp, hd, ha⟩ := prelude_hasResources pluginValues h hv
  refine ⟨_, _, pluginValues, (NewPerformancePluginConfig.prelude pluginValues h).1,
    NewPerformancePluginConfig_some _ _ _ _ _, ?_,
    loadNetworkCharts_hasResources _ _ _ _ _ hw2 _ _ _ _ (by decide) hp,
    loadNetworkCharts_hasResources _ _ _ _ _ hw2 _ _ _ _ (by decide) hd, ?_,
    loadNetworkCharts_hasResources _ _ _ _ _ hw2 _ _ _ _ (by decide) ha⟩
  · simp only [Config.chartValues]
    rw [loadNetworkCharts_get _ hr, firstCall_eq_none _ _ (fun n hn => (hnames n hn).1)]
    rfl
  · simp only [Config.chartValues]
    rw [loadNetworkCharts_get _ hr, firstCall_eq_none _ _ (fun n hn => (hnames n hn).2)]
    rfl

theorem NewPerformancePluginConfig_resources_witness :
    ∃ cfg h2 pluginVals mockVals,
      NewPerformancePluginConfig List.reverse (some 0) "" gethNetworks callerHeap
        = some (cfg, h2) ∧
      cfg.chartValues "plugin" = some pluginVals ∧
      Heap.hasResources h2 (Val.ref pluginVals) "plugin" "2" "4096Mi" ∧
      Heap.hasResources h2 (Val.ref pluginVals) "db" "1" "2048Mi" ∧
      cfg.chartValues "mockserver" = some mockVals ∧
      Heap.hasResources h2 (Val.ref mockVals) "app" "1" "1024Mi" :=
  NewPerformancePluginConfig_resources List.reverse (fun m => List.reverse_perm m) 0 ""
    gethNetworks callerHeap (by decide) (gethNetworks_wellBehaved _) (by decide)

/-- Counterexample to the resources claim for every network list: with the
non-nil `pluginValues` `{}` and two networks whose chart names are "plugin" and
"mockserver", the network charts replace the plugin and mockserver charts, whose
values are then `{"replicas": 1}` and carry none of the resources. -/
theorem NewPerformancePluginConfig_resources_overwritten :
    ∃ cfg h2 pluginVals mockVals,
      NewPerformancePluginConfig id (some 0) "" [nilNetwork "plugin", nilNetwork "mockserver"]
        [[]] = some (cfg, h2) ∧
      cfg.chartValues "plugin" = some pluginVals ∧
      Heap.snapshot h2 4 (Val.ref pluginVals) = Value.map [("replicas", Value.int 1)] ∧
      cfg.chartValues "mockserver" = some mockVals ∧
      Heap.snapshot h2 4 (Val.ref mockVals) = Value.map [("replicas", Value.int 1)] ∧
      ¬ Heap.hasResources h2 (Val.ref pluginVals) "plugin" "2" "4096Mi" ∧
      ¬ Heap.hasResources h2 (Val.ref pluginVals) "db" "1" "2048Mi" ∧
      ¬ Heap.hasResources h2 (Val.ref mockVals) "app" "1" "1024Mi" :=
  ⟨_, _, _, _, rfl, rfl, rfl, rfl, rfl,
    fun h => Option.noConfusion (show (none : Option Val) = some (Val.str "2") from h.1),
    fun h => Option.noConfusion (show (none : Option Val) = some (Val.str "1") from h.1),
    fun h => Option.noConfusion (show (none : Option Val) = some (Val.str "1") from h.1)⟩

theorem loadNetworkCharts_nil (rangeOrder : GoMap networkChart → GoMap networkChart)
    (hr : RangeOrder rangeOrder) (optionalNamespacePrefix : String) (charts : Charts Addr)
    (h : Heap) :
    loadNetworkCharts rangeOrder optionalNamespacePrefix charts [] h
      = (if optionalNamespacePrefix ≠ "" then optionalNamespacePrefix else "plugin",
          charts, h) := by
  rw [loadNetworkCharts_eq]
  have : rangeOrder (loadNetworkCharts.networkCharts [] h) = [] :=
    List.Perm.eq_nil (hr _)
  rw [this]
  rfl

theorem PluginVersion_nil_empty (v : String) :
    PluginVersion v none []
      = (0, [[("plugin", Val.ref 2)], [("version", Val.str v)], [("image", Val.ref 1)]]) := rfl

theorem prelude_PluginVersion (v : String) :
    NewPerformancePluginConfig.prelude 0
        [[("plugin", Val.ref 2)], [("version", Val.str v)], [("image", Val.ref 1)]]
      = (15, [
          [("plugin", Val.ref 6), ("db", Val.ref 10)],
          [("version", Val.str v)],
          [("image", Val.ref 1)],
          [("cpu", Val.str "2"), ("memory", Val.str "4096Mi")],
          [("cpu", Val.str "2"), ("memory", Val.str "4096Mi")],
          [("requests", Val.ref 3), ("limits", Val.ref 4)],
          [("resources", Val.ref 5)],
          [("cpu", Val.str "1"), ("memory", Val.str "2048Mi")],
          [("cpu", Val.str "1"), ("memory", Val.str "2048Mi")],
          [("requests", Val.ref 7), ("limits", Val.ref 8)],
          [("resources", Val.ref 9)],
          [("cpu", Val.str "1"), ("memory", Val.str "1024Mi")],
          [("cpu", Val.str "1"), ("memory", Val.str "1024Mi")],
          [("requests", Val.ref 11), ("limits", Val.ref 12)],
          [("resources", Val.ref 13)],
          [("app", Val.ref 14)]]) := by
  simp [NewPerformancePluginConfig.prelude, resourcesValue, Heap.alloc, Heap.write, GoMap.set]

/-- C10, at the failing input: for every version `v`, every prefix and every
order of `range`, with no networks, `NewPerformancePluginConfig` called on the
map `PluginVersion(v, nil)` returns a config whose plugin chart has exactly the
two resources entries as values; the "plugin" entry was replaced whole, so
plugin.image.version is no longer there. -/
theorem NewPerformancePluginConfig_drops_version
    (rangeOrder : GoMap networkChart → GoMap networkChart) (hr : RangeOrder rangeOrder)
    (v optionalNamespacePrefix : String) :
    ∃ cfg h2 pluginVals,
      NewPerformancePluginConfig rangeOrder (some (PluginVersion v none []).1)
        optionalNamespacePrefix [] (PluginVersion v none []).2 = some (cfg, h2) ∧
      cfg.chartValues "plugin" = some pluginVals ∧
      pluginVals = (PluginVersion v none []).1 ∧
      Heap.path (PluginVersion v none []).2 (Val.ref pluginVals) ["plugin", "image", "version"]
        = some (Val.str v) ∧
      Heap.snapshot h2 4 (Val.ref pluginVals)
        = Value.map [("plugin", resourcesTree "2" "4096Mi"),
            ("db", resourcesTree "1" "2048Mi")] ∧
      Heap.path h2 (Val.ref pluginVals) ["plugin", "image", "version"] = none := by
  refine ⟨Config.mk (if optionalNamespacePrefix ≠ "" then optionalNamespacePrefix else "plugin")
      (NewPerformancePluginConfig.base (PluginVersion v none []).1 (PluginVersion v none []).2),
    (NewPerformancePluginConfig.prelude (PluginVersion v none []).1
      (PluginVersion v none []).2).2,
    (PluginVersion v none []).1, ?_, rfl, rfl, rfl, ?_, ?_⟩
  · rw [NewPerformancePluginConfig_some, loadNetworkCharts_nil _ hr]
  · simp only [PluginVersion_nil_empty, prelude_PluginVersion]
    rfl
  · simp only [PluginVersion_nil_empty, prelude_PluginVersion]
    rfl

theorem NewPerformancePluginConfig_drops_version_witness :
    ∃ cfg h2 pluginVals,
      NewPerformancePluginConfig id (some (PluginVersion "1.0.0" none []).1)
        "" [] (PluginVersion "1.0.0" none []).2 = some (cfg, h2) ∧
      cfg.chartValues "plugin" = some pluginVals ∧
      pluginVals = (PluginVersion "1.0.0" none []).1 ∧
      Heap.path (PluginVersion "1.0.0" none []).2 (Val.ref pluginVals)
        ["plugin", "image", "version"] = some (Val.str "1.0.0") ∧
      Heap.snapshot h2 4 (Val.ref pluginVals)
        = Value.map [("plugin", resourcesTree "2" "4096Mi"),
            ("db", resourcesTree "1" "2048Mi")] ∧
      Heap.path h2 (Val.ref pluginVals) ["plugin", "image", "version"] = none :=
  NewPerformancePluginConfig_drops_version id (fun m => List.Perm.refl m) "1.0.0" ""


/-! ## Deep merge -/

mutual
theorem deepMerge_of_absorbs (d : Values) :
    ∀ s : List (String × Value), Absorbs d s → deepMerge d s = d
  | [], _ => by simp [deepMerge]
  | (k, v) :: rest, h => by
    simp only [Absorbs] at h
    obtain ⟨⟨w, hw, hv⟩, hrest⟩ := h
    simp only [deepMerge]
    rw [hw, mergeValue_of_absorbs w v hv, GoMap.set_get_self d k w hw]
    exact deepMerge_of_absorbs d rest hrest
theorem mergeValue_of_absorbs (w : Value) :
    ∀ v : Value, AbsorbsValue w v → mergeValue (some w) v = w
  | Value.map s, h => by
    simp only [AbsorbsValue] at h
    obtain ⟨d, hd, hs⟩ := h
    subst hd
    simp only [mergeValue]
    rw [deepMerge_of_absorbs d s hs]
  | Value.str _, h => by simp only [AbsorbsValue] at h; simp [mergeValue, h]
  | Value.int _, h => by simp only [AbsorbsValue] at h; simp [mergeValue, h]
  | Value.bool _, h => by simp only [AbsorbsValue] at h; simp [mergeValue, h]
  | Value.list _, h => by simp only [AbsorbsValue] at h; simp [mergeValue, h]
end

theorem deepMerge_get_of_not_mem (k : String) :
    ∀ (s : List (String × Value)) (d : Values), k ∉ GoMap.keys s →
      GoMap.get (deepMerge d s) k = GoMap.get d k
  | [], d, _ => by simp [deepMerge]
  | (k', v) :: rest, d, h => by
    simp only [GoMap.keys, List.map_cons, List.mem_cons, not_or] at h
    simp only [deepMerge]
    rw [deepMerge_get_of_not_mem k rest _ h.2, GoMap.get_set_other _ _ _ _ (Ne.symm h.1)]

mutual
theorem absorbs_self_entries (d : Values) :
    ∀ s : List (String × Value), (∀ kv ∈ s, GoMap.get d kv.1 = some kv.2) →
      Value.uniqueKeysEntries s = true → Absorbs d s
  | [], _, _ => by simp [Absorbs]
  | (k, v) :: rest, hget, hu => by
    simp only [Value.uniqueKeysEntries, Bool.and_eq_true] at hu
    simp only [Absorbs]
    exact ⟨⟨v, hget (k, v) (List.mem_cons_self _ _), absorbsValue_self v hu.1⟩,
      absorbs_self_entries d rest (fun kv hkv => hget kv (List.mem_cons_of_mem _ hkv)) hu.2⟩
theorem absorbsValue_self : ∀ v : Value, Value.uniqueKeys v = true → AbsorbsValue v v
  | Value.map s, hu => by
    simp only [Value.uniqueKeys, Bool.and_eq_true, decide_eq_true_eq] at hu
    simp only [AbsorbsValue]
    exact ⟨s, rfl, absorbs_self_entries s s
      (fun kv hkv => GoMap.get_of_mem_nodup s kv.1 kv.2 hu.1 hkv) hu.2⟩
  | Value.str _, _ => by simp [AbsorbsValue]
  | Value.int _, _ => by simp [AbsorbsValue]
  | Value.bool _, _ => by simp [AbsorbsValue]
  | Value.list _, _ => by simp [AbsorbsValue]
end

mutual
theorem absorbs_deepMerge :
    ∀ (s : List (String × Value)) (d : Values), (GoMap.keys s).Nodup →
      Value.uniqueKeysEntries s = true → Absorbs (deepMerge d s) s
  | [], _, _, _ => by simp [Absorbs]
  | (k, v) :: rest, d, hn, hu => by
    simp only [GoMap.keys, List.map_cons, List.nodup_cons] at hn
    simp only [Value.uniqueKeysEntries, Bool.and_eq_true] at hu
    simp only [Absorbs, deepMerge]
    refine ⟨⟨mergeValue (GoMap.get d k) v, ?_, absorbsValue_mergeValue v (GoMap.get d k) hu.1⟩,
      absorbs_deepMerge rest _ hn.2 hu.2⟩
    rw [deepMerge_get_of_not_mem k rest _ hn.1, GoMap.get_set_same]
theorem absorbsValue_mergeValue :
    ∀ (v : Value) (old : Option Value), Value.uniqueKeys v = true →
      AbsorbsValue (mergeValue old v) v
  | Value.map s, old, hu => by
    have hu2 := hu
    simp only [Value.uniqueKeys, Bool.and_eq_true, decide_eq_true_eq] at hu2
    cases old with
    | none => exact absorbsValue_self (Value.map s) hu
    | some w =>
      cases w with
      | map d =>
        simp only [mergeValue, AbsorbsValue]
        exact ⟨_, rfl, absorbs_deepMerge s d hu2.1 hu2.2⟩
      | str _ => exact absorbsValue_self (Value.map s) hu
      | int _ => exact absorbsValue_self (Value.map s) hu
      | bool _ => exact absorbsValue_self (Value.map s) hu
      | list _ => exact absorbsValue_self (Value.map s) hu
  | Value.str _, _, _ => by simp [mergeValue, AbsorbsValue]
  | Value.int _, _, _ => by simp [mergeValue, AbsorbsValue]
  | Value.bool _, _, _ => by simp [mergeValue, AbsorbsValue]
  | Value.list _, _, _ => by simp [mergeValue, AbsorbsValue]
end

/-- Merging the same mapping in a second time changes nothing. -/
theorem deepMerge_idempotent (d : Values) (s : List (String × Value))
    (hu : Value.uniqueKeys (Value.map s) = true) :
    deepMerge (deepMerge d s) s = deepMerge d s := by
  simp only [Value.uniqueKeys, Bool.and_eq_true, decide_eq_true_eq] at hu
  exact deepMerge_of_absorbs _ _ (absorbs_deepMerge s d hu.1 hu.2)

/-! ## Decoding twice -/

theorem mergeChart_of_absorbs (charts : Charts Values) (name : String) (vals : Option Values)
    (h : ChartAbsorbs charts name vals) : Decode.mergeChart charts name vals = charts := by
  obtain ⟨chart, hget, hv⟩ := h
  cases vals with
  | none => simp only [Decode.mergeChart, hget]
  | some v =>
    obtain ⟨old, hold, habs⟩ := hv v rfl
    simp only [Decode.mergeChart, hget, hold, deepMerge_of_absorbs old v habs]
    apply GoMap.set_get_self
    rw [hget, ← hold]

theorem absorbs_mergeChart (charts : Charts Values) (name : String) (vals : Option Values)
    (hu : ∀ v, vals = some v → Value.uniqueKeys (Value.map v) = true) :
    ChartAbsorbs (Decode.mergeChart charts name vals) name vals := by
  cases hget : GoMap.get charts name with
  | none =>
    refine ⟨({ Values := vals } : HelmChart Values), ?_, ?_⟩
    · simp only [Decode.mergeChart, hget, GoMap.get_set_same]
    · intro v hv
      have h := absorbsValue_self (Value.map v) (hu v hv)
      simp only [AbsorbsValue] at h
      obtain ⟨d, hd, habs⟩ := h
      cases hd
      exact ⟨v, hv, habs⟩
  | some chart =>
    cases vals with
    | none =>
      refine ⟨chart, ?_, fun v hv => Option.noConfusion hv⟩
      simp only [Decode.mergeChart, hget]
    | some v =>
      have h := hu v rfl
      simp only [Value.uniqueKeys, Bool.and_eq_true, decide_eq_true_eq] at h
      have hres : ∃ old, GoMap.get (Decode.mergeChart charts name (some v)) name
          = some { chart with Values := some (deepMerge old v) } := by
        simp only [Decode.mergeChart, hget]
        exact ⟨_, GoMap.get_set_same _ _ _⟩
      obtain ⟨old, hold⟩ := hres
      refine ⟨_, hold, ?_⟩
      intro v2 hv2
      cases hv2
      exact ⟨_, rfl, absorbs_deepMerge v old h.1 h.2⟩

theorem mergeChart_get_other (charts : Charts Values) (name k : String) (vals : Option Values)
    (h : name ≠ k) : GoMap.get (Decode.mergeChart charts name vals) k = GoMap.get charts k := by
  unfold Decode.mergeChart
  cases hget : GoMap.get charts name with
  | none => simp only [GoMap.get_set_other _ _ _ _ h]
  | some chart =>
    cases vals with
    | none => rfl
    | some v => simp only [GoMap.get_set_other _ _ _ _ h]

/-- Decoding the entries of a well-formed document succeeds, leaves the charts
it does not name as they were, and leaves every chart it names absorbing what
the document says of it. -/
theorem Decode.entries_spec :
    ∀ (entries : List (String × Value)) (charts : Charts Values), (GoMap.keys entries).Nodup →
      (∀ kv ∈ entries, Document.wellFormedEntry kv.2 = true) →
      ∃ once, Decode.entries charts entries = Except.ok once ∧
        (∀ k, k ∉ GoMap.keys entries → GoMap.get once k = GoMap.get charts k) ∧
        (∀ kv ∈ entries, ∃ vals, Decode.entryValues kv.2 = Except.ok vals ∧
          ChartAbsorbs once kv.1 vals)
  | [], charts, _, _ => ⟨charts, rfl, fun _ _ => rfl, fun _ h => absurd h (List.not_mem_nil _)⟩
  | (name, entry) :: rest, charts, hn, hw => by
    simp only [GoMap.keys, List.map_cons, List.nodup_cons] at hn
    have hentry := hw (name, entry) (List.mem_cons_self _ _)
    obtain ⟨vals, hvals, hu⟩ : ∃ vals, Decode.entryValues entry = Except.ok vals ∧
        ∀ v, vals = some v → Value.uniqueKeys (Value.map v) = true := by
      unfold Document.wellFormedEntry at hentry
      cases hd : Decode.entryValues entry with
      | error e => simp [hd] at hentry
      | ok vals =>
        refine ⟨vals, rfl, ?_⟩
        intro v hv
        subst hv
        simpa [hd] using hentry
    obtain ⟨once, honce, hother, habs⟩ := Decode.entries_spec rest
      (Decode.mergeChart charts name vals) hn.2
      (fun kv hkv => hw kv (List.mem_cons_of_mem _ hkv))
    refine ⟨once, ?_, ?_, ?_⟩
    · simp only [Decode.entries, hvals, honce]
    · intro k hk
      simp only [GoMap.keys, List.map_cons, List.mem_cons, not_or] at hk
      rw [hother k hk.2, mergeChart_get_other _ _ _ _ (Ne.symm hk.1)]
    · intro kv hkv
      rcases List.mem_cons.mp hkv with h | h
      · subst h
        refine ⟨vals, hvals, ?_⟩
        obtain ⟨chart, hget, hv⟩ := absorbs_mergeChart charts name vals hu
        exact ⟨chart, by rw [hother name hn.1, hget], hv⟩
      · exact habs kv h

/-- Charts that absorb every entry of a document are left as they are by
decoding it. -/
theorem Decode.entries_of_absorbs (once : Charts Values) :
    ∀ entries : List (String × Value),
      (∀ kv ∈ entries, ∃ vals, Decode.entryValues kv.2 = Except.ok vals ∧
        ChartAbsorbs once kv.1 vals) →
      Decode.entries once entries = Except.ok once
  | [], _ => rfl
  | (name, entry) :: rest, h => by
    obtain ⟨vals, hvals, habs⟩ := h (name, entry) (List.mem_cons_self _ _)
    simp only [Decode.entries, hvals, mergeChart_of_absorbs once name vals habs]
    exact Decode.entries_of_absorbs once rest (fun kv hkv => h kv (List.mem_cons_of_mem _ hkv))

/-- C5: decode-merge idempotence. For every well-formed charts document and
every existing charts descriptor, decoding succeeds, whether or not the
descriptor contains the workloads the document names, and decoding the document
a second time into the result succeeds and leaves every workload with the same
values as decoding it once. -/
theorem Decode_idempotent (charts : Charts Values) (doc : Value)
    (h : Document.wellFormed doc = true) :
    ∃ once twice, Decode charts doc = Except.ok once ∧ Decode once doc = Except.ok twice ∧
      ∀ name, (GoMap.get twice name).map (fun chart => chart.Values)
        = (GoMap.get once name).map (fun chart => chart.Values) := by
  cases doc with
  | map entries =>
    simp only [Document.wellFormed, Bool.and_eq_true, decide_eq_true_eq, List.all_eq_true] at h
    obtain ⟨once, honce, -, habs⟩ := Decode.entries_spec entries charts h.1 h.2
    exact ⟨once, once, honce, Decode.entries_of_absorbs once entries habs, fun _ => rfl⟩
  | str _ => simp [Document.wellFormed] at h
  | int _ => simp [Document.wellFormed] at h
  | bool _ => simp [Document.wellFormed] at h
  | list _ => simp [Document.wellFormed] at h

theorem pluginConfigCharts_eq :
    pluginConfigCharts = [
      ("mockserver-config", { Index := 1 }),
      ("mockserver", { Index := 2 }),
      ("plugin", { Index := 2, Values := some [] })] := rfl

theorem Decode_idempotent_witness :
    ∃ once twice,
      Decode pluginConfigCharts chartsTestFile = Except.ok once ∧
      Decode once chartsTestFile = Except.ok twice ∧
      ∀ name, (GoMap.get twice name).map (fun chart => chart.Values)
        = (GoMap.get once name).map (fun chart => chart.Values) :=
  Decode_idempotent pluginConfigCharts chartsTestFile rfl

/-! ## Endpoint URLs -/

theorem LocalURLsByPort_foldl (host portName scheme : String) :
    ∀ (connections : GoMap ConnectionRecord) (acc : List String),
      connections.foldl (fun (urls : List String) entry =>
        match GoMap.get entry.2.LocalPorts portName with
        | some port => urls ++ [composeURL scheme host port]
        | none => urls) acc
      = acc ++ (exposedLocalPorts connections portName).map (composeURL scheme host)
  | [], acc => by simp [exposedLocalPorts]
  | entry :: rest, acc => by
    rw [List.foldl_cons, LocalURLsByPort_foldl host portName scheme rest]
    cases h : GoMap.get entry.2.LocalPorts portName with
    | none => simp [exposedLocalPorts, List.filterMap_cons, h]
    | some port => simp [exposedLocalPorts, List.filterMap_cons, h]

/-- C4: for every set of connection records, port name and scheme,
`LocalURLsByPort` returns one URL `scheme://host:localPort` per connection
record exposing the port name, in order, so as many URLs as there are such
records (one for one instance, two for two instances); and it fails with
`NotFound` when no connection record exposes the port name. -/
theorem LocalURLsByPort_spec (connections : GoMap ConnectionRecord)
    (host portName scheme : String) :
    (exposedLocalPorts connections portName ≠ [] →
      LocalURLsByPort connections host portName scheme
        = Except.ok ((exposedLocalPorts connections portName).map (composeURL scheme host))) ∧
    (exposedLocalPorts connections portName = [] →
      LocalURLsByPort connections host portName scheme
        = Except.error ConnectionError.NotFound) ∧
    ((exposedLocalPorts connections portName).map (composeURL scheme host)).length
      = connections.countP (fun entry => (GoMap.get entry.2.LocalPorts portName).isSome) := by
  refine ⟨?_, ?_, ?_⟩
  · intro h
    unfold LocalURLsByPort
    simp only [LocalURLsByPort_foldl, List.nil_append]
    rw [if_neg]
    simpa using h
  · intro h
    unfold LocalURLsByPort
    simp only [LocalURLsByPort_foldl, List.nil_append, h]
    rfl
  · rw [List.length_map]
    unfold exposedLocalPorts
    induction connections with
    | nil => rfl
    | cons entry rest ih =>
      cases h : GoMap.get entry.2.LocalPorts portName with
      | none => simp [List.filterMap_cons, List.countP_cons, h, ih]
      | some port => simp [List.filterMap_cons, List.countP_cons, h, ih]

/-- The connections of `TestUpgrade` after the upgrade to two replicas: the
two instances each expose `access`, the database scope does not. -/
theorem LocalURLsByPort_two_instances :
    LocalURLsByPort [
        ("plugin-node_0_node", { LocalPorts := [("access", 50001)], RemotePorts := [("access", 6688)] }),
        ("plugin-node_0_plugin-db", { LocalPorts := [("postgres", 50002)], RemotePorts := [("postgres", 5432)] }),
        ("plugin-node_1_node", { LocalPorts := [("access", 50003)], RemotePorts := [("access", 6688)] })]
      "localhost" "access" "http"
      = Except.ok ["http://localhost:50001", "http://localhost:50003"] ∧
    LocalURLsByPort [
        ("plugin-node_0_node", { LocalPorts := [("access", 50001)], RemotePorts := [("access", 6688)] }),
        ("plugin-node_0_plugin-db", { LocalPorts := [("postgres", 50002)], RemotePorts := [("postgres", 5432)] }),
        ("plugin-node_1_node", { LocalPorts := [("access", 50003)], RemotePorts := [("access", 6688)] })]
      "localhost" "http-rpc" "http"
      = Except.error ConnectionError.NotFound :=
  ⟨((LocalURLsByPort_spec _ "localhost" "access" "http").1
      (fun h => List.noConfusion h)).trans rfl,
    (LocalURLsByPort_spec _ "localhost" "http-rpc" "http").2.1 rfl⟩

/-! ## The deployment scheduler -/

theorem priorities_pairwise {V : Type} (charts : Charts V) :
    (priorities charts).Pairwise (fun a b => a < b) := by
  have hs : (priorities charts).Sorted (fun a b => a ≤ b) := List.sorted_insertionSort _ _
  have hn : (priorities charts).Nodup :=
    (List.perm_insertionSort _ _).nodup_iff.mpr (List.nodup_dedup _)
  exact hs.lt_of_le hn

theorem mem_priorities {V : Type} (charts : Charts V) (n : String) (c : HelmChart V)
    (h : GoMap.get charts n = some c) : c.Index ∈ priorities charts := by
  unfold priorities
  rw [(List.perm_insertionSort _ _).mem_iff, List.mem_dedup]
  exact List.mem_map.mpr ⟨(n, c), GoMap.mem_of_get charts n c h, rfl⟩

theorem mem_priorityGroup {V : Type} (charts : Charts V) (p : Int) (n : String) :
    n ∈ priorityGroup charts p ↔ ∃ c, GoMap.get charts n = some c ∧ c.Index = p := by
  unfold priorityGroup
  rw [List.mem_filter, decide_eq_true_eq]
  constructor
  · rintro ⟨-, h⟩
    cases hg : GoMap.get charts n with
    | none => simp [hg] at h
    | some c => exact ⟨c, rfl, by simpa [hg] using h⟩
  · rintro ⟨c, hg, hc⟩
    exact ⟨GoMap.mem_keys_of_get charts n c hg, by simp [hg, hc]⟩

theorem DeployAll.inv_init {V : Type} (charts : Charts V) : DeployAll.Inv charts (DeployAll.init charts) :=
  ⟨[], priorities charts, rfl, rfl, fun _ _ _ h => absurd h (List.not_mem_nil _), fun _ _ _ _ => rfl⟩

theorem DeployAll.inv_step {V : Type} (charts : Charts V) (s s2 : DeployAllState) (a : DeployAction)
    (hinv : DeployAll.Inv charts s) (hstep : DeployAll.step s a = some s2) :
    DeployAll.Inv charts s2 := by
  obtain ⟨done, rest, hp, hg, hdone, htail⟩ := hinv
  have hpw := priorities_pairwise charts
  rw [hp] at hpw
  cases a with
  | start name =>
    cases rest with
    | nil =>
      simp only [List.map_nil] at hg
      simp [DeployAll.step, hg] at hstep
    | cons p rest2 =>
      simp only [List.map_cons] at hg
      simp only [DeployAll.step, hg] at hstep
      split at hstep
      · rename_i hc
        cases hstep
        obtain ⟨c0, hc0, hi0⟩ := (mem_priorityGroup charts p name).mp hc.1
        refine ⟨done, p :: rest2, hp, rfl, ?_, ?_⟩
        · intro n c hn hmem
          by_cases e : n = name
          · subst e
            rw [hc0] at hn
            cases hn
            rw [hi0] at hmem
            exact absurd ((List.pairwise_append.mp hpw).2.2 p hmem p (List.mem_cons_self _ _))
              (lt_irrefl p)
          · simp only [e, if_false]
            exact hdone n c hn hmem
        · intro n c hn hmem
          by_cases e : n = name
          · subst e
            rw [hc0] at hn
            cases hn
            rw [hi0] at hmem
            have h2 := (List.pairwise_append.mp hpw).2.1
            exact absurd ((List.pairwise_cons.mp h2).1 p hmem) (lt_irrefl p)
          · simp only [e, if_false]
            exact htail n c hn hmem
      · exact Option.noConfusion hstep
  | finish name ok =>
    simp only [DeployAll.step] at hstep
    split at hstep
    · rename_i hc
      cases hstep
      refine ⟨done, rest, hp, hg, ?_, ?_⟩
      · intro n c hn hmem
        by_cases e : n = name
        · subst e
          have := hdone n c hn hmem
          rw [hc] at this
          exact Status.noConfusion this
        · simp only [e, if_false]
          exact hdone n c hn hmem
      · intro n c hn hmem
        by_cases e : n = name
        · subst e
          have := htail n c hn hmem
          rw [hc] at this
          exact Status.noConfusion this
        · simp only [e, if_false]
          exact htail n c hn hmem
    · exact Option.noConfusion hstep
  | next =>
    cases rest with
    | nil =>
      simp only [List.map_nil] at hg
      simp [DeployAll.step, hg] at hstep
    | cons p rest2 =>
      simp only [List.map_cons] at hg
      simp only [DeployAll.step, hg] at hstep
      split at hstep
      · rename_i hc
        cases hstep
        rw [List.all_eq_true] at hc
        refine ⟨done ++ [p], rest2, by simp [hp], rfl, ?_, ?_⟩
        · intro n c hn hmem
          rcases List.mem_append.mp hmem with h | h
          · exact hdone n c hn h
          · have hi : c.Index = p := by simpa using h
            have := hc n ((mem_priorityGroup charts p n).mpr ⟨c, hn, hi⟩)
            simpa using this
        · intro n c hn hmem
          exact htail n c hn (List.mem_of_mem_tail hmem)
      · exact Option.noConfusion hstep

theorem DeployAll.inv_run {V : Type} (charts : Charts V) :
    ∀ (schedule : List DeployAction) (s s2 : DeployAllState), DeployAll.Inv charts s →
      DeployAll.run s schedule = some s2 → DeployAll.Inv charts s2
  | [], s, s2, hinv, hrun => by
    simp only [DeployAll.run, Option.some.injEq] at hrun
    exact hrun ▸ hinv
  | a :: rest, s, s2, hinv, hrun => by
    simp only [DeployAll.run] at hrun
    cases hstep : DeployAll.step s a with
    | none => simp [hstep] at hrun
    | some s1 =>
      simp only [hstep] at hrun
      exact DeployAll.inv_run charts rest s1 s2 (DeployAll.inv_step charts s s1 a hinv hstep) hrun

/-- Under the invariant, a workload that is no longer `Pending` has every
workload of a lower priority `Deployed`. -/
theorem DeployAll.inv_order {V : Type} (charts : Charts V) (s : DeployAllState)
    (hinv : DeployAll.Inv charts s) (lower higher : String) (cl ch : HelmChart V)
    (hl : GoMap.get charts lower = some cl) (hh : GoMap.get charts higher = some ch)
    (hlt : cl.Index < ch.Index) (hbegun : s.status higher ≠ Status.Pending) :
    s.status lower = Status.Deployed := by
  obtain ⟨done, rest, hp, -, hdone, htail⟩ := hinv
  have hpw := priorities_pairwise charts
  rw [hp] at hpw
  obtain ⟨-, hrest, hcross⟩ := List.pairwise_append.mp hpw
  have hml := mem_priorities charts lower cl hl
  have hmh := mem_priorities charts higher ch hh
  rw [hp] at hml hmh
  rcases List.mem_append.mp hml with h | h
  · exact hdone lower cl hl h
  · exfalso
    rcases List.mem_append.mp hmh with h2 | h2
    · exact absurd (hcross _ h2 _ h) (not_lt.mpr hlt.le)
    · cases rest with
      | nil => exact absurd h (List.not_mem_nil _)
      | cons p rest2 =>
        have hnot : ch.Index ∉ rest2 := fun hm => hbegun (htail higher ch hh hm)
        have hch : ch.Index = p := by
          rcases List.mem_cons.mp h2 with e | e
          · exact e
          · exact absurd e hnot
        rcases List.mem_cons.mp h with e | e
        · rw [e, hch] at hlt
          exact lt_irrefl p hlt
        · have := (List.pairwise_cons.mp hrest).1 _ e
          rw [← hch] at this
          exact absurd this (not_lt.mpr hlt.le)

/-- C3: for all priority (`Index`) assignments of the charts, in whatever order
they were added, and along every schedule `DeployAll` can take: once a workload
has begun its unit of work, every workload of a lower priority group has reached
`Deployed` or `Failed`; and at the moment a workload begins, every workload of a
lower priority group has already done so. -/
theorem DeployAll_group_order {V : Type} (charts : Charts V) (schedule : List DeployAction)
    (s : DeployAllState) (hrun : DeployAll.run (DeployAll.init charts) schedule = some s)
    (lower higher : String) (cl ch : HelmChart V)
    (hl : GoMap.get charts lower = some cl) (hh : GoMap.get charts higher = some ch)
    (hlt : cl.Index < ch.Index) :
    (s.status higher ≠ Status.Pending →
      s.status lower = Status.Deployed ∨ s.status lower = Status.Failed) ∧
    (∀ s2, DeployAll.step s (DeployAction.start higher) = some s2 →
      s.status lower = Status.Deployed ∨ s.status lower = Status.Failed) := by
  have hinv := DeployAll.inv_run charts schedule _ s (DeployAll.inv_init charts) hrun
  constructor
  · intro hbegun
    exact Or.inl (DeployAll.inv_order charts s hinv lower higher cl ch hl hh hlt hbegun)
  · intro s2 hstep
    have hinv2 := DeployAll.inv_step charts s s2 _ hinv hstep
    have hne : lower ≠ higher := by
      intro e
      rw [e, hh] at hl
      cases hl
      exact lt_irrefl _ hlt
    simp only [DeployAll.step] at hstep
    split at hstep
    · exact Option.noConfusion hstep
    · split at hstep
      · cases hstep
        have h2 := DeployAll.inv_order charts _ hinv2 lower higher cl ch hl hh hlt
          (by simp)
        simp only [hne, if_false] at h2
        exact Or.inl h2
      · exact Option.noConfusion hstep

theorem DeployAll_group_order_witness :
    ∃ s, DeployAll.run (DeployAll.init unorderedCharts)
        [DeployAction.start "geth", DeployAction.finish "geth" true, DeployAction.next,
          DeployAction.start "plugin"] = some s ∧
      s.status "plugin" = Status.Deploying ∧
      (s.status "plugin" ≠ Status.Pending →
        s.status "geth" = Status.Deployed ∨ s.status "geth" = Status.Failed) ∧
      (∀ s2, DeployAll.step s (DeployAction.start "plugin") = some s2 →
        s.status "geth" = Status.Deployed ∨ s.status "geth" = Status.Failed) :=
  ⟨_, rfl, by decide,
    DeployAll_group_order unorderedCharts
      [DeployAction.start "geth", DeployAction.finish "geth" true, DeployAction.next,
        DeployAction.start "plugin"] _ rfl "geth" "plugin" _ _ rfl rfl (by decide)⟩

/-- The model is not idle: `TestParallelDeployments` deploys every chart along
a schedule in which the two charts of index 2 overlap, and no schedule lets a
chart of index 2 begin first. -/
theorem DeployAll_parallelDeployments :
    (∃ s, DeployAll.run (DeployAll.init parallelDeploymentsCharts)
        [DeployAction.start "geth", DeployAction.finish "geth" true, DeployAction.next,
          DeployAction.start "plugin-2", DeployAction.start "plugin-1",
          DeployAction.finish "plugin-1" true, DeployAction.finish "plugin-2" true,
          DeployAction.next] = some s ∧
      s.groups = [] ∧ s.status "geth" = Status.Deployed ∧
      s.status "plugin-1" = Status.Deployed ∧ s.status "plugin-2" = Status.Deployed) ∧
    DeployAll.step (DeployAll.init parallelDeploymentsCharts) (DeployAction.start "plugin-1")
      = none :=
  ⟨⟨_, rfl, rfl, by decide, by decide, by decide⟩, rfl⟩

end Helmenv
